import Mathlib

/-!
Shallow embedding of the `vless_automation` pipeline (CSV record extraction,
vless-URI synthesis, node merging, Clash YAML rendering, age filtering and
conditional GitHub uploads), together with proofs about the embedded
operations.  Strings are modelled as `List Char`; Python string methods used
by the code (`split`, `strip`, `isdigit`, `int`, `urllib.parse.quote`,
`urllib.parse.unquote`, `base64.b64encode`) are given explicit executable
models next to the functions that use them.
-/

/-- The characters of a string literal, used to write concrete inputs. -/
def chars (s : String) : List Char := s.data

/-- Models Python `str.split(sep)` for a one-character separator: splits at
every occurrence, keeping empty pieces (`"a..b".split('.') == ['a','','b']`,
`"".split('.') == ['']`). -/
def pySplit (sep : Char) : List Char → List (List Char)
  | [] => [[]]
  | c :: rest =>
    if c = sep then [] :: pySplit sep rest
    else
      match pySplit sep rest with
      | [] => [[c]]
      | p :: ps => (c :: p) :: ps

/-- Models Python `str.isspace` membership for the ASCII whitespace characters
the repository's inputs can contain. -/
def pyIsSpace (c : Char) : Bool :=
  c = ' ' || c = '\t' || c = '\n' || c = '\x0d' || c = '\x0b' || c = '\x0c'

/-- Models Python `str.lstrip()`. -/
def pyLStrip (l : List Char) : List Char := l.dropWhile pyIsSpace

/-- Models Python `str.rstrip()`. -/
def pyRStrip (l : List Char) : List Char := (l.reverse.dropWhile pyIsSpace).reverse

/-- Models Python `str.strip()`. -/
def pyStrip (l : List Char) : List Char := pyRStrip (pyLStrip l)

/-- The numeric value of a digit string (most significant digit first). -/
def digitsToNat (l : List Char) : Nat :=
  l.foldl (fun a c => a * 10 + (c.toNat - 48)) 0

/-- Models Python `int(s)` on the forms the repository feeds it: surrounding
whitespace stripped, an optional sign, then at least one ASCII digit
(`None` models the `ValueError` branch). -/
def pyInt (s : List Char) : Option Int :=
  match pyStrip s with
  | [] => none
  | c :: ds =>
      if c = '+' then
        if !ds.isEmpty && ds.all Char.isDigit then some (digitsToNat ds) else none
      else if c = '-' then
        if !ds.isEmpty && ds.all Char.isDigit then some (-(digitsToNat ds : Int)) else none
      else if (c :: ds).all Char.isDigit then some (digitsToNat (c :: ds)) else none

/-- `CSVProcessor._is_valid_ip` (src/utils/csv_processor.py:169-186): split on
`'.'`, require exactly 4 parts, each a nonempty all-digit string whose value
is between 0 and 255.  (`part.isdigit()` is modelled for ASCII digits.) -/
def is_valid_ip (ip : List Char) : Bool :=
  let parts := pySplit '.' ip
  decide (parts.length = 4) &&
    parts.all (fun p => !p.isEmpty && p.all Char.isDigit && digitsToNat p ≤ 255)

/-- An accepted octet of `is_valid_ip`: nonempty, all digits, value at most 255. -/
def okOctet (p : List Char) : Bool :=
  !p.isEmpty && p.all Char.isDigit && digitsToNat p ≤ 255

lemma pySplit_not_mem (sep : Char) (p : List Char) (h : sep ∉ p) :
    pySplit sep p = [p] := by
  induction p with
  | nil => rfl
  | cons c rest ih =>
    rw [List.mem_cons, not_or] at h
    simp only [pySplit, if_neg (fun hc => h.1 (Eq.symm hc)), ih h.2]

lemma pySplit_append (sep : Char) (p rest : List Char) (h : sep ∉ p) :
    pySplit sep (p ++ sep :: rest) = p :: pySplit sep rest := by
  induction p with
  | nil => simp [pySplit]
  | cons c q ih =>
    rw [List.mem_cons, not_or] at h
    simp only [List.cons_append, pySplit, if_neg (fun hc => h.1 (Eq.symm hc)),
      List.append_eq, ih h.2]

lemma okOctet_props {p : List Char} (h : okOctet p = true) :
    p ≠ [] ∧ (∀ c ∈ p, c.isDigit = true) ∧ digitsToNat p ≤ 255 := by
  simp only [okOctet, Bool.and_eq_true, List.all_eq_true, decide_eq_true_eq] at h
  refine ⟨?_, h.1.2, h.2⟩
  intro hnil
  subst hnil
  simp [List.isEmpty] at h

lemma not_dot_of_digits {p : List Char} (h : ∀ c ∈ p, c.isDigit = true) :
    '.' ∉ p := by
  intro hm
  have := h _ hm
  simp [Char.isDigit] at this

/-- Joins four octet strings with dots, as a dotted-quad string. -/
def dottedQuad (p1 p2 p3 p4 : List Char) : List Char :=
  p1 ++ '.' :: (p2 ++ '.' :: (p3 ++ '.' :: p4))

/-- C3 (amended).  `CSVProcessor._is_valid_ip` accepts every dotted string of
exactly four nonempty all-digit octets with value at most 255 — including
leading-zero forms such as `"01"` — and every accepted string has exactly four
parts, each a nonempty all-digit string with value at most 255.  The validator
does not reject leading-zero octets. -/
theorem is_valid_ip_characterization :
    (∀ p1 p2 p3 p4 : List Char, okOctet p1 = true → okOctet p2 = true →
      okOctet p3 = true → okOctet p4 = true →
      is_valid_ip (dottedQuad p1 p2 p3 p4) = true) ∧
    (∀ s : List Char, is_valid_ip s = true →
      (pySplit '.' s).length = 4 ∧ ∀ p ∈ pySplit '.' s, okOctet p = true) := by
  constructor
  · intro p1 p2 p3 p4 h1 h2 h3 h4
    have d1 : '.' ∉ p1 := not_dot_of_digits (okOctet_props h1).2.1
    have d2 : '.' ∉ p2 := not_dot_of_digits (okOctet_props h2).2.1
    have d3 : '.' ∉ p3 := not_dot_of_digits (okOctet_props h3).2.1
    have d4 : '.' ∉ p4 := not_dot_of_digits (okOctet_props h4).2.1
    have hsplit : pySplit '.' (dottedQuad p1 p2 p3 p4) = [p1, p2, p3, p4] := by
      unfold dottedQuad
      rw [pySplit_append _ _ _ d1, pySplit_append _ _ _ d2,
        pySplit_append _ _ _ d3, pySplit_not_mem _ _ d4]
    simp only [is_valid_ip, hsplit, List.all_cons, List.all_nil, List.length_cons,
      List.length_nil]
    simp only [okOctet] at h1 h2 h3 h4
    simp [h1, h2, h3, h4]
  · intro s hs
    simp only [is_valid_ip, Bool.and_eq_true, decide_eq_true_eq,
      List.all_eq_true] at hs
    exact ⟨hs.1, fun p hp => by simpa [okOctet] using hs.2 p hp⟩

/-- C3 counterexample: the claim says octets with a disallowed leading zero
such as `"01"` are rejected, but `_is_valid_ip` accepts `"1.2.3.01"`. -/
theorem is_valid_ip_accepts_leading_zero :
    is_valid_ip (chars "1.2.3.01") = true := by decide

/-- At a fixed `'@'`, the rest of the regex `@([\d\.]+):(\d+)` of
`merge_nodes` (src/main.py:331, src/utils/node_manager.py:69): a nonempty
greedy run over `[\d\.]`, then `':'`, then a nonempty greedy digit run.
Returns the matched `ip:port` key text. -/
def keyAfterAt (l : List Char) : Option (List Char) :=
  let run := l.takeWhile (fun c => c.isDigit || c = '.')
  if run.isEmpty then none
  else
    match l.drop run.length with
    | ':' :: r2 =>
        let port := r2.takeWhile Char.isDigit
        if port.isEmpty then none else some (run ++ ':' :: port)
    | _ => none

/-- `re.search(r'@([\d\.]+):(\d+)', node)`: the leftmost `'@'` at which
`keyAfterAt` succeeds, scanning left to right. -/
def extract_key : List Char → Option (List Char)
  | [] => none
  | '@' :: rest =>
      match keyAfterAt rest with
      | some k => some k
      | none => extract_key rest
  | _ :: rest => extract_key rest

/-- The deduplication key `VlessAutomation.merge_nodes` (src/main.py:329-341)
uses for a node: the extracted `ip:port` text when the regex matches, and the
node's full literal text otherwise (both live in the same `seen` set). -/
def nodeKey (node : List Char) : List Char :=
  match extract_key node with
  | some k => k
  | none => node

/-- The dedup loop of `VlessAutomation.merge_nodes`: keep a node when its key
has not been seen. -/
def dedupeNodes (seen : List (List Char)) : List (List Char) → List (List Char)
  | [] => []
  | n :: rest =>
      if nodeKey n ∈ seen then dedupeNodes seen rest
      else n :: dedupeNodes (nodeKey n :: seen) rest

/-- `VlessAutomation.merge_nodes` (src/main.py:321-348): concatenate local and
remote nodes, dedupe by `nodeKey` keeping first occurrences. -/
def merge_nodes (local_nodes remote_nodes : List (List Char)) : List (List Char) :=
  dedupeNodes [] (local_nodes ++ remote_nodes)

/-- The dedup loop of `NodeManager.merge_nodes`
(src/utils/node_manager.py:26-37): `if key and key not in seen` — a node whose
key cannot be extracted is dropped. -/
def nmDedupe (seen : List (List Char)) : List (List Char) → List (List Char)
  | [] => []
  | n :: rest =>
      match extract_key n with
      | some k => if k ∈ seen then nmDedupe seen rest else n :: nmDedupe (k :: seen) rest
      | none => nmDedupe seen rest

/-- `NodeManager.merge_nodes` (src/utils/node_manager.py:15-37). -/
def nodeManager_merge_nodes (local_nodes remote_nodes : List (List Char)) :
    List (List Char) :=
  nmDedupe [] (local_nodes ++ remote_nodes)

lemma dedupeNodes_not_seen (seen : List (List Char)) (nodes : List (List Char)) :
    ∀ m ∈ dedupeNodes seen nodes, nodeKey m ∉ seen := by
  induction nodes generalizing seen with
  | nil => simp [dedupeNodes]
  | cons n rest ih =>
    intro m hm
    simp only [dedupeNodes] at hm
    by_cases hk : nodeKey n ∈ seen
    · rw [if_pos hk] at hm
      exact ih seen m hm
    · rw [if_neg hk] at hm
      rcases List.mem_cons.mp hm with h | h
      · subst h; exact hk
      · intro hs
        exact ih (nodeKey n :: seen) m h (List.mem_cons_of_mem _ hs)

lemma dedupeNodes_pairwise (seen : List (List Char)) (nodes : List (List Char)) :
    (dedupeNodes seen nodes).Pairwise (fun x y => nodeKey x ≠ nodeKey y) := by
  induction nodes generalizing seen with
  | nil => simp [dedupeNodes]
  | cons n rest ih =>
    simp only [dedupeNodes]
    by_cases hk : nodeKey n ∈ seen
    · rw [if_pos hk]; exact ih seen
    · rw [if_neg hk]
      refine List.Pairwise.cons ?_ (ih (nodeKey n :: seen))
      intro m hm heq
      exact dedupeNodes_not_seen _ _ m hm (by rw [← heq]; exact List.mem_cons_self _ _)

lemma dedupeNodes_sublist (seen : List (List Char)) (nodes : List (List Char)) :
    (dedupeNodes seen nodes).Sublist nodes := by
  induction nodes generalizing seen with
  | nil => simp [dedupeNodes]
  | cons n rest ih =>
    simp only [dedupeNodes]
    by_cases hk : nodeKey n ∈ seen
    · rw [if_pos hk]; exact (ih seen).cons n
    · rw [if_neg hk]; exact (ih (nodeKey n :: seen)).cons₂ n

lemma dedupeNodes_covers (seen : List (List Char)) (nodes : List (List Char)) :
    ∀ n ∈ nodes, nodeKey n ∉ seen →
      ∃ m ∈ dedupeNodes seen nodes, nodeKey m = nodeKey n := by
  induction nodes generalizing seen with
  | nil => simp
  | cons n0 rest ih =>
    intro n hn hns
    simp only [dedupeNodes]
    by_cases hk : nodeKey n0 ∈ seen
    · rw [if_pos hk]
      rcases List.mem_cons.mp hn with h | h
      · exact absurd (h ▸ hns) (not_not_intro hk)
      · exact ih seen n h hns
    · rw [if_neg hk]
      rcases List.mem_cons.mp hn with h | h
      · exact ⟨n0, List.mem_cons_self _ _, by rw [h]⟩
      · by_cases hsame : nodeKey n = nodeKey n0
        · exact ⟨n0, List.mem_cons_self _ _, hsame.symm⟩
        · obtain ⟨m, hm, hmk⟩ := ih (nodeKey n0 :: seen) n h
            (by simp [hns, hsame])
          exact ⟨m, List.mem_cons_of_mem _ hm, hmk⟩

lemma dedupeNodes_first (seen : List (List Char)) (nodes : List (List Char)) :
    ∀ m ∈ dedupeNodes seen nodes,
      nodes.find? (fun x => nodeKey x == nodeKey m) = some m := by
  induction nodes generalizing seen with
  | nil => simp [dedupeNodes]
  | cons n0 rest ih =>
    intro m hm
    simp only [dedupeNodes] at hm
    by_cases hk : nodeKey n0 ∈ seen
    · rw [if_pos hk] at hm
      have hne : nodeKey n0 ≠ nodeKey m := by
        intro heq
        exact dedupeNodes_not_seen seen rest m hm (heq ▸ hk)
      rw [List.find?_cons_of_neg _ (by simpa using hne)]
      exact ih seen m hm
    · rw [if_neg hk] at hm
      rcases List.mem_cons.mp hm with h | h
      · subst h
        exact List.find?_cons_of_pos _ (by simp)
      · have hne : nodeKey n0 ≠ nodeKey m := by
          intro heq
          exact dedupeNodes_not_seen _ rest m h
            (by rw [← heq]; exact List.mem_cons_self _ _)
        rw [List.find?_cons_of_neg _ (by simpa using hne)]
        exact ih (nodeKey n0 :: seen) m h

/-- C1.  `VlessAutomation.merge_nodes` output: a subsequence of
`new ++ remote`, with pairwise distinct `(host, port)` keys, every input key
represented, each survivor being the first occurrence of its key in the
concatenation, and — when a key occurs in the new nodes — the survivor taken
from the new nodes (new-wins-over-remote). -/
theorem merge_nodes_spec (A B : List (List Char)) :
    (merge_nodes A B).Sublist (A ++ B) ∧
    (merge_nodes A B).Pairwise (fun x y => nodeKey x ≠ nodeKey y) ∧
    (∀ n ∈ A ++ B, ∃ m ∈ merge_nodes A B, nodeKey m = nodeKey n) ∧
    (∀ m ∈ merge_nodes A B, (A ++ B).find? (fun x => nodeKey x == nodeKey m) = some m) ∧
    (∀ m ∈ merge_nodes A B, (∃ a ∈ A, nodeKey a = nodeKey m) → m ∈ A) := by
  refine ⟨dedupeNodes_sublist [] _, dedupeNodes_pairwise [] _,
    fun n hn => dedupeNodes_covers [] _ n hn (by simp),
    fun m hm => dedupeNodes_first [] _ m hm, fun m hm ⟨a, ha, hak⟩ => ?_⟩
  have hfind := dedupeNodes_first [] _ m hm
  have hA : (A.find? (fun x => nodeKey x == nodeKey m)).isSome := by
    rw [List.find?_isSome]
    exact ⟨a, ha, by simpa using hak⟩
  rw [List.find?_append] at hfind
  obtain ⟨m', hm'⟩ := Option.isSome_iff_exists.mp hA
  rw [hm'] at hfind
  have hmm : m' = m := by simpa [Option.or] using hfind
  exact hmm ▸ List.mem_of_find?_eq_some hm'

lemma nmDedupe_keyed (seen : List (List Char)) (nodes : List (List Char)) :
    ∀ m ∈ nmDedupe seen nodes, (extract_key m).isSome = true := by
  induction nodes generalizing seen with
  | nil => simp [nmDedupe]
  | cons n rest ih =>
    intro m hm
    rcases hk : extract_key n with - | k
    · simp only [nmDedupe, hk] at hm
      exact ih seen m hm
    · simp only [nmDedupe, hk] at hm
      by_cases hs : k ∈ seen
      · rw [if_pos hs] at hm
        exact ih seen m hm
      · rw [if_neg hs] at hm
        rcases List.mem_cons.mp hm with h | h
        · subst h; simp [hk]
        · exact ih (k :: seen) m h

/-- C2 counterexample.  `NodeManager.merge_nodes` silently drops a URI from
which no `@host:port` key can be extracted (`"nodeA"` vanishes), and even
`VlessAutomation.merge_nodes` drops the keyless URI `"1.2.3.4:443"` when its
literal text collides with the key of an earlier keyed node. -/
theorem merge_drops_keyless_uris :
    extract_key (chars "nodeA") = none ∧
    nodeManager_merge_nodes [chars "nodeA"] [] = [] ∧
    extract_key (chars "1.2.3.4:443") = none ∧
    merge_nodes [chars "u@1.2.3.4:443x"] [chars "1.2.3.4:443"]
      = [chars "u@1.2.3.4:443x"] := by
  refine ⟨by decide, by decide, by decide, by decide⟩

/-- C2 (amended).  In `VlessAutomation.merge_nodes` a keyless URI is never
lost outright: its literal text is always represented by a surviving node
(itself, unless its text collides with an earlier node's key).  In
`NodeManager.merge_nodes`, by contrast, every surviving node has an
extractable key — keyless URIs are silently dropped. -/
theorem merge_keyless_handling :
    (∀ A B : List (List Char), ∀ n ∈ A ++ B, extract_key n = none →
      ∃ m ∈ merge_nodes A B, nodeKey m = n) ∧
    (∀ A B : List (List Char), ∀ m ∈ nodeManager_merge_nodes A B,
      (extract_key m).isSome = true) := by
  constructor
  · intro A B n hn hkey
    have h := dedupeNodes_covers [] (A ++ B) n hn (by simp)
    simpa [nodeKey, hkey] using h
  · intro A B m hm
    exact nmDedupe_keyed [] _ m hm

/-- Static configuration fields (src/config.py) consumed by the embedded
functions. -/
structure Config where
  UUID : List Char
  HOST : List Char
  SNI : List Char
  FINGERPRINT : List Char
  CUSTOM_PATH : List Char
  REMARKS_PREFIX : List Char
  DEFAULT_PORT : Nat
  FORCE_PORT_443 : Bool
  MAX_DAYS_TO_KEEP : Nat
  AUTO_DELETE_OLD_NODES : Bool
  deriving DecidableEq

/-- A concrete configuration with the defaults of src/config.py, used for
concrete evaluations. -/
def cfgTest : Config where
  UUID := chars "471a8e64-7b21-4703-b1d1-45a221098459"
  HOST := chars "knny.dpdns.org"
  SNI := chars "knny.dpdns.org"
  FINGERPRINT := chars "chrome"
  CUSTOM_PATH := chars "/?ed=2048"
  REMARKS_PREFIX := chars "香港节点-"
  DEFAULT_PORT := 443
  FORCE_PORT_443 := true
  MAX_DAYS_TO_KEEP := 10
  AUTO_DELETE_OLD_NODES := true

/-- `int(cell)` restricted to the accepted port range `1..65535`
(src/utils/csv_processor.py:98-101 and 113-117): `none` when parsing fails or
the value is out of range (in either case the loop keeps the old port). -/
def pyPortInRange (s : List Char) : Option Nat :=
  match pyInt s with
  | some v => if 1 ≤ v ∧ v ≤ 65535 then some v.toNat else none
  | none => none

/-- The `':' in cell` branch of `CSVProcessor._extract_ip_port_from_row`
(src/utils/csv_processor.py:89-106): on a two-part split, a valid head
overwrites the ip and an in-range tail overwrites the port; the Bool is the
early-return condition `if ip and port` which Python evaluates after any
two-part colon cell, even one that updated nothing. -/
def colonStep (ip : Option (List Char)) (port : Option Nat) (c : List Char) :
    Bool × Option (List Char) × Option Nat :=
  if ':' ∈ c then
    match pySplit ':' c with
    | [a, b] =>
        let pip := pyStrip a
        if is_valid_ip pip then
          let port' := (pyPortInRange (pyStrip b)).or port
          (port'.isSome, some pip, port')
        else (ip.isSome && port.isSome, ip, port)
    | _ => (false, ip, port)
  else (false, ip, port)

/-- The standalone-IP and standalone-port checks of
`_extract_ip_port_from_row` (src/utils/csv_processor.py:108-118). -/
def standaloneStep (ip : Option (List Char)) (port : Option Nat) (c : List Char) :
    Option (List Char) × Option Nat :=
  (if is_valid_ip c then some c else ip, (pyPortInRange c).or port)

/-- The cell loop of `CSVProcessor._extract_ip_port_from_row`
(src/utils/csv_processor.py:76-124), with the end-of-row default-port fill. -/
def extractRowGo (cfg : Config) :
    Option (List Char) → Option Nat → List (List Char) →
      Option (List Char) × Option Nat
  | ip, port, [] =>
      if ip.isSome && port.isNone then (ip, some cfg.DEFAULT_PORT) else (ip, port)
  | ip, port, cell :: rest =>
      if cell.isEmpty then extractRowGo cfg ip port rest
      else
        let c := pyStrip cell
        match colonStep ip port c with
        | (true, ip', port') => (ip', port')
        | (false, ip', port') =>
            let s := standaloneStep ip' port' c
            extractRowGo cfg s.1 s.2 rest

/-- `CSVProcessor._extract_ip_port_from_row` (src/utils/csv_processor.py:76-124). -/
def extract_ip_port_from_row (cfg : Config) (row : List (List Char)) :
    Option (List Char) × Option Nat :=
  extractRowGo cfg none none row

/-- The last cell of the row that is a valid standalone IP (stripped), as the
claim describes the fallback. -/
def lastValidIp : List (List Char) → Option (List Char)
  | [] => none
  | cell :: rest =>
      (lastValidIp rest).or
        (if is_valid_ip (pyStrip cell) then some (pyStrip cell) else none)

/-- The last cell of the row that is a standalone in-range integer port, as
the claim describes the fallback. -/
def lastValidPort : List (List Char) → Option Nat
  | [] => none
  | cell :: rest => (lastValidPort rest).or (pyPortInRange (pyStrip cell))

/-- Follows the claim's words for `_extract_ip_port_from_row`: a first cell of
the valid `host:port` form is returned immediately; otherwise the row yields
the last valid standalone IP paired with the last valid standalone port (or
the default port if none). -/
def claimExtractRow (cfg : Config) (row : List (List Char)) :
    Option (List Char) × Option Nat :=
  let firstPair : Option (List Char × Nat) :=
    match row with
    | [] => none
    | c0 :: _ =>
        match pySplit ':' (pyStrip c0) with
        | [a, b] =>
            if is_valid_ip (pyStrip a) then
              match pyPortInRange (pyStrip b) with
              | some p => some (pyStrip a, p)
              | none => none
            else none
        | _ => none
  match firstPair with
  | some (h, p) => (some h, some p)
  | none =>
      match lastValidIp row, lastValidPort row with
      | some i, some p => (some i, some p)
      | some i, none => (some i, some cfg.DEFAULT_PORT)
      | none, p => (none, p)

/-- C10 counterexample.  On the row `["9.9.9.9", "100", "1.2.3.4:443x"]` the
code pairs the colon cell's freshly set IP with the port kept from an earlier
cell and returns early, whereas the claim's description (last standalone IP +
last standalone port) yields `("9.9.9.9", 100)`. -/
theorem extract_row_mixed_pair :
    extract_ip_port_from_row cfgTest
        [chars "9.9.9.9", chars "100", chars "1.2.3.4:443x"]
      = (some (chars "1.2.3.4"), some 100) ∧
    claimExtractRow cfgTest
        [chars "9.9.9.9", chars "100", chars "1.2.3.4:443x"]
      = (some (chars "9.9.9.9"), some 100) := by
  refine ⟨by decide, by decide⟩

lemma pySplit_two_mem {sep : Char} {l a b : List Char}
    (h : pySplit sep l = [a, b]) : sep ∈ l := by
  by_contra hn
  rw [pySplit_not_mem sep l hn] at h
  simp at h

lemma colonStep_no_colon (ip : Option (List Char)) (port : Option Nat)
    (c : List Char) (h : ':' ∉ c) : colonStep ip port c = (false, ip, port) := by
  simp [colonStep, h]

lemma extractRowGo_no_colon (cfg : Config) (row : List (List Char)) :
    ∀ ip0 : Option (List Char), ∀ port0 : Option Nat,
      (∀ cell ∈ row, ':' ∉ pyStrip cell) →
      extractRowGo cfg ip0 port0 row =
        (if ((lastValidIp row).or ip0).isSome && ((lastValidPort row).or port0).isNone
         then ((lastValidIp row).or ip0, some cfg.DEFAULT_PORT)
         else ((lastValidIp row).or ip0, (lastValidPort row).or port0)) := by
  induction row with
  | nil => intro ip0 port0 _; simp [extractRowGo, lastValidIp, lastValidPort]
  | cons cell rest ih =>
    intro ip0 port0 h
    have hcell := h cell (List.mem_cons_self _ _)
    have hrest := fun x hx => h x (List.mem_cons_of_mem _ hx)
    by_cases he : cell.isEmpty
    · have hnil : cell = [] := by
        cases cell
        · rfl
        · simp [List.isEmpty] at he
      subst hnil
      simp only [extractRowGo, if_pos he, ih ip0 port0 hrest, lastValidIp,
        lastValidPort]
      have h1 : is_valid_ip (pyStrip []) = false := by decide
      have h2 : pyPortInRange (pyStrip []) = none := by decide
      simp [h1, h2]
    · rw [show extractRowGo cfg ip0 port0 (cell :: rest)
          = (let c := pyStrip cell;
             match colonStep ip0 port0 c with
             | (true, ip', port') => (ip', port')
             | (false, ip', port') =>
                 let s := standaloneStep ip' port' c
                 extractRowGo cfg s.1 s.2 rest) from by
        simp only [extractRowGo, if_neg he]]
      simp only [colonStep_no_colon _ _ _ hcell, standaloneStep]
      rw [ih _ _ hrest]
      simp only [lastValidIp, lastValidPort, Option.or_assoc]
      by_cases hv : is_valid_ip (pyStrip cell) <;>
        simp [hv, Option.or_assoc]

/-- C10 (amended).  In the structured parse path each row yields at most one
record, as follows: a row whose first cell splits as `a:b` with a valid IP
head and an in-range port tail is returned immediately as that pair; and a row
with no colon cell yields the last valid standalone IP paired with the last
valid standalone in-range port, with the configured default port substituted
when an IP was found but no port.  (When a later colon cell is present, the
early return can instead pair that cell's IP with a port remembered from an
earlier cell, which is what the counterexample exhibits.) -/
theorem extract_row_characterization :
    (∀ cfg : Config, ∀ cell a b : List Char, ∀ rest : List (List Char), ∀ p : Nat,
      cell.isEmpty = false → pySplit ':' (pyStrip cell) = [a, b] →
      is_valid_ip (pyStrip a) = true → pyPortInRange (pyStrip b) = some p →
      extract_ip_port_from_row cfg (cell :: rest) = (some (pyStrip a), some p)) ∧
    (∀ cfg : Config, ∀ row : List (List Char),
      (∀ cell ∈ row, ':' ∉ pyStrip cell) →
      extract_ip_port_from_row cfg row =
        (match lastValidPort row with
         | some p => (lastValidIp row, some p)
         | none =>
             if (lastValidIp row).isSome
             then (lastValidIp row, some cfg.DEFAULT_PORT)
             else (lastValidIp row, none))) := by
  constructor
  · intro cfg cell a b rest p he hsplit hip hport
    have hc : ':' ∈ pyStrip cell := pySplit_two_mem hsplit
    show extractRowGo cfg none none (cell :: rest) = _
    rw [show extractRowGo cfg none none (cell :: rest)
        = (let c := pyStrip cell;
           match colonStep none none c with
           | (true, ip', port') => (ip', port')
           | (false, ip', port') =>
               let s := standaloneStep ip' port' c
               extractRowGo cfg s.1 s.2 rest) from by
      simp only [extractRowGo, he, Bool.false_eq_true, if_false]]
    simp only [colonStep, if_pos hc, hsplit, hip, if_pos rfl, hport]
    simp
  · intro cfg row h
    show extractRowGo cfg none none row = _
    rw [extractRowGo_no_colon cfg row none none h]
    simp only [Option.or_none]
    rcases lastValidPort row with - | p <;> rcases hli : lastValidIp row with - | i <;>
      simp

/-- UTF-8 encoding of one character, as byte values. -/
def utf8EncodeChar (c : Char) : List Nat :=
  let n := c.toNat
  if n < 128 then [n]
  else if n < 2048 then [192 + n / 64, 128 + n % 64]
  else if n < 65536 then [224 + n / 4096, 128 + (n / 64) % 64, 128 + n % 64]
  else [240 + n / 262144, 128 + (n / 4096) % 64, 128 + (n / 64) % 64, 128 + n % 64]

/-- Models Python `s.encode('utf-8')`. -/
def utf8Encode (s : List Char) : List Nat :=
  (s.map utf8EncodeChar).flatten

/-- The base64 alphabet. -/
def b64Alphabet : List Char :=
  chars "ABCDEFGHIJKLMNOPQRSTUVWXYZabcdefghijklmnopqrstuvwxyz0123456789+/"

/-- One base64 alphabet character. -/
def b64Char (n : Nat) : Char := b64Alphabet.getD n '='

/-- Models Python `base64.b64encode` over a byte list (standard alphabet,
`'='` padding, no line wrapping). -/
def b64encode : List Nat → List Char
  | [] => []
  | [b1] => [b64Char (b1 / 4), b64Char (b1 % 4 * 16), '=', '=']
  | [b1, b2] => [b64Char (b1 / 4), b64Char (b1 % 4 * 16 + b2 / 16),
      b64Char (b2 % 16 * 4), '=']
  | b1 :: b2 :: b3 :: rest =>
      b64Char (b1 / 4) :: b64Char (b1 % 4 * 16 + b2 / 16) ::
        b64Char (b2 % 16 * 4 + b3 / 64) :: b64Char (b3 % 64) :: b64encode rest

/-- `VlessAutomation.create_base64` (src/main.py:315-319): a single layer of
base64 over the UTF-8 bytes. -/
def create_base64 (plain_text : List Char) : List Char :=
  b64encode (utf8Encode plain_text)

/-- A stored remote file: its revision token and its plain content bytes
(GitHub's contents API returns the content base64-encoded; the newline
unwrapping of `_get_file_info` is modelled by comparing against the unwrapped
`b64encode` of the stored bytes). -/
structure Blob where
  sha : List Char
  content : List Char
  deriving DecidableEq

/-- A conditional `PUT /contents` body: the base64 payload and the optional
last-known revision token. -/
structure PutRequest where
  content_b64 : List Char
  sha : Option (List Char)
  deriving DecidableEq

/-- The empty-YAML substitution of `VlessAutomation.upload_file`
(src/main.py:142-151): an empty content destined for a `.yaml`/`.yml` path is
replaced by a minimal document before encoding. -/
def emptyYamlSub : List Char :=
  chars "proxies: []\nproxy-groups:\n  - name: 🚀 代理\n    type: select\n    proxies: []\nrules:\n  - MATCH,🚀 代理"

/-- The content `VlessAutomation.upload_file` actually encodes for a path. -/
def effectiveUploadContent (file_path content : List Char) : List Char :=
  if (pyStrip content).isEmpty then
    if (chars ".yaml").isSuffixOf file_path || (chars ".yml").isSuffixOf file_path
    then emptyYamlSub else content
  else content

/-- `VlessAutomation.upload_file` (src/main.py:122-223) up to the network
call: `none` when the encoded content equals the stored file's encoded
content (the upload is skipped and `True` returned), otherwise the `PUT` body
that is sent, with the stored sha attached when the file exists. -/
def upload_file_request (stored : Option Blob) (file_path content : List Char) :
    Option PutRequest :=
  let enc := create_base64 (effectiveUploadContent file_path content)
  match stored with
  | some b =>
      if create_base64 b.content = enc then none
      else some { content_b64 := enc, sha := some b.sha }
  | none => some { content_b64 := enc, sha := none }

/-- The revision token stored after the operation: untouched when no request
is issued, the server-assigned token of the new revision otherwise. -/
def shaAfterUpload (stored : Option Blob) (req : Option PutRequest)
    (newSha : List Char) : Option (List Char) :=
  match req with
  | none => stored.map Blob.sha
  | some _ => some newSha

/-- `GitHubClient.upload_file` (src/utils/github_client.py:160-221): reads the
stored sha, then always issues the `PUT` — there is no identical-content
skip. -/
def ghclient_upload_request (stored : Option Blob) (content : List Char)
    (is_base64 : Bool) : Option PutRequest :=
  some { content_b64 := if is_base64 then content else create_base64 content,
         sha := stored.map Blob.sha }

/-- C9 counterexample.  With `"hello"` stored, `GitHubClient.upload_file`
still issues a network `PUT` for the byte-identical payload (here passed
pre-encoded, `is_base64=True`, as its callers do); the claim says such a
write happens without a network write. -/
theorem ghclient_uploads_identical_content :
    create_base64 (chars "hello") = chars "aGVsbG8=" ∧
    ghclient_upload_request (some ⟨chars "oldsha", chars "hello"⟩)
        (chars "aGVsbG8=") true
      = some { content_b64 := chars "aGVsbG8=", sha := some (chars "oldsha") } := by
  refine ⟨by decide, by decide⟩

/-- C9 (amended).  `VlessAutomation.upload_file` treats a write whose computed
content is byte-identical to the stored content as a no-op success — no `PUT`
is issued and the stored revision token is unchanged — but
`GitHubClient.upload_file` always issues the `PUT`, identical content or
not. -/
theorem upload_noop_on_identical_content :
    (∀ b : Blob, ∀ file_path content : List Char,
      b.content = effectiveUploadContent file_path content →
      upload_file_request (some b) file_path content = none) ∧
    (∀ b : Blob, ∀ file_path content newSha : List Char,
      b.content = effectiveUploadContent file_path content →
      shaAfterUpload (some b) (upload_file_request (some b) file_path content)
          newSha = some b.sha) ∧
    (∀ stored : Option Blob, ∀ content : List Char, ∀ is_base64 : Bool,
      (ghclient_upload_request stored content is_base64).isSome = true) := by
  refine ⟨fun b p c h => ?_, fun b p c ns h => ?_, fun s c f => rfl⟩
  · simp [upload_file_request, h]
  · simp [upload_file_request, h, shaAfterUpload, Option.map]

/-- Decimal digits, on fuel so that the definition evaluates by reduction. -/
def natDigitsAux : Nat → Nat → List Char
  | 0, _ => []
  | fuel + 1, n =>
      if n < 10 then [Char.ofNat (48 + n)]
      else natDigitsAux fuel (n / 10) ++ [Char.ofNat (48 + n % 10)]

/-- Decimal digits of a natural number, as Python `str(n)` prints it. -/
def natDigits (n : Nat) : List Char := natDigitsAux (n + 1) n

/-- Models Python `str(n).zfill(2)`. -/
def zfill2 (n : Nat) : List Char :=
  let d := natDigits n
  if d.length < 2 then '0' :: d else d

/-- The characters `urllib.parse.quote` leaves unescaped with its default
`safe='/'`: ASCII letters, digits, `_.-~` and `/`. -/
def quoteSafe (c : Char) : Bool :=
  c.isAlpha || c.isDigit || c = '_' || c = '.' || c = '-' || c = '~' || c = '/'

/-- An uppercase hex digit. -/
def hexDigit (n : Nat) : Char :=
  if n < 10 then Char.ofNat (48 + n) else Char.ofNat (55 + n)

/-- A percent-encoded byte, `%XX`. -/
def pctEncodeByte (b : Nat) : List Char := ['%', hexDigit (b / 16), hexDigit (b % 16)]

/-- Models `urllib.parse.quote(s)`: safe characters kept, everything else
percent-encoded byte by byte over its UTF-8 encoding. -/
def pyQuote (s : List Char) : List Char :=
  (s.map (fun c =>
    if quoteSafe c then [c] else ((utf8EncodeChar c).map pctEncodeByte).flatten)).flatten

/-- A `datetime.datetime` value as far as the repository consumes it. -/
structure PyDateTime where
  year : Nat
  month : Nat
  day : Nat
  hour : Nat
  minute : Nat
  second : Nat
  deriving DecidableEq

/-- `datetime.now().strftime("%m%d")` (src/main.py:271). -/
def fmtMMDD (now : PyDateTime) : List Char := zfill2 now.month ++ zfill2 now.day

/-- `".".join(ip.split(".")[:2])` (src/main.py:274): the first two dotted
octets of the host. -/
def joinDots : List (List Char) → List Char
  | [] => []
  | [p] => p
  | p :: ps => p ++ '.' :: joinDots ps

/-- The 2-octet grouping key of the label counter. -/
def ipPrefix2 (ip : List Char) : List Char := joinDots ((pySplit '.' ip).take 2)

/-- The label `f"{REMARKS_PREFIX}{today}-{sequence}-{final_port}-{ip}"`
(src/main.py:281, src/utils/vless_generator.py:59). -/
def generate_remark (cfg : Config) (today : List Char) (fport : Nat)
    (ip : List Char) (seq : Nat) : List Char :=
  cfg.REMARKS_PREFIX ++ today ++ '-' :: zfill2 seq ++ '-' :: natDigits fport
    ++ '-' :: ip

/-- The fixed query string of `_create_vless_link` (src/main.py:295-308):
`encryption, security, sni, fp, type, host, path, alpn, flow` in dict order,
each value `urllib.parse.quote`d. -/
def queryParams (cfg : Config) : List Char :=
  chars "encryption=" ++ pyQuote (chars "none") ++
  chars "&security=" ++ pyQuote (chars "tls") ++
  chars "&sni=" ++ pyQuote cfg.SNI ++
  chars "&fp=" ++ pyQuote cfg.FINGERPRINT ++
  chars "&type=" ++ pyQuote (chars "ws") ++
  chars "&host=" ++ pyQuote cfg.HOST ++
  chars "&path=" ++ pyQuote cfg.CUSTOM_PATH ++
  chars "&alpn=" ++ pyQuote (chars "h2,http/1.1") ++
  chars "&flow=" ++ pyQuote []

/-- `VlessAutomation._create_vless_link` (src/main.py:293-313), identical to
`VlessGenerator._generate_vless_link` (src/utils/vless_generator.py:61-81):
`vless://{UUID}@{ip}:{port}?{query}#{quote(remark)}`. -/
def create_vless_link (cfg : Config) (ip : List Char) (port : Nat)
    (remark : List Char) : List Char :=
  chars "vless://" ++ cfg.UUID ++ '@' :: (ip ++ ':' :: natDigits port)
    ++ '?' :: (queryParams cfg ++ '#' :: pyQuote remark)

/-- The per-prefix counter loop of `VlessAutomation.generate_vless_nodes`
(src/main.py:259-291).  The Python dict (`node_counter`, absent keys
initialised to 0 then incremented) is modelled as a total function that is 0
away from the keys written so far. -/
def generateVlessGo (cfg : Config) (today : List Char)
    (counter : List Char → Nat) : List (List Char × Nat) → List (List Char)
  | [] => []
  | (ip, port) :: rest =>
      let fport := if cfg.FORCE_PORT_443 then 443 else port
      let pfx := ipPrefix2 ip
      let seq := counter pfx + 1
      create_vless_link cfg ip fport (generate_remark cfg today fport ip seq) ::
        generateVlessGo cfg today (fun p => if p = pfx then seq else counter p) rest

/-- `VlessAutomation.generate_vless_nodes` (src/main.py:259-291); `today` is
`datetime.now().strftime("%m%d")`, and the counter starts empty at each
call. -/
def generate_vless_nodes (cfg : Config) (today : List Char)
    (pairs : List (List Char × Nat)) : List (List Char) :=
  generateVlessGo cfg today (fun _ => 0) pairs

/-- Follows the spec's wording for the label counter: each record's sequence
number is one more than the number of earlier records sharing its 2-octet IP
prefix, reset at the start of the call. -/
def generateVlessSpec (cfg : Config) (today : List Char)
    (done : List (List Char × Nat)) : List (List Char × Nat) → List (List Char)
  | [] => []
  | (ip, port) :: rest =>
      let fport := if cfg.FORCE_PORT_443 then 443 else port
      let seq := (done.filter (fun q => ipPrefix2 q.1 == ipPrefix2 ip)).length + 1
      create_vless_link cfg ip fport (generate_remark cfg today fport ip seq) ::
        generateVlessSpec cfg today (done ++ [(ip, port)]) rest

lemma generateVlessGo_spec (cfg : Config) (today : List Char)
    (pairs : List (List Char × Nat)) :
    ∀ counter : List Char → Nat, ∀ done : List (List Char × Nat),
      (∀ p, counter p = (done.filter (fun q => ipPrefix2 q.1 == p)).length) →
      generateVlessGo cfg today counter pairs = generateVlessSpec cfg today done pairs := by
  induction pairs with
  | nil => intro counter done _; rfl
  | cons pr rest ih =>
    intro counter done hinv
    obtain ⟨ip, port⟩ := pr
    simp only [generateVlessGo, generateVlessSpec, hinv (ipPrefix2 ip)]
    refine congrArg _ (ih _ _ fun p => ?_)
    rw [List.filter_append]
    simp only [List.length_append, List.filter_cons, List.filter_nil]
    by_cases hp : p = ipPrefix2 ip
    · subst hp
      simp [hinv]
    · rw [if_neg hp, hinv p]
      have : (ipPrefix2 ip == p) = false := by
        simpa using fun h => hp h.symm
      simp [this]

/-- C7.  The label sequence counter of `generate_vless_nodes` is keyed by the
first two dotted octets of the host: in general every record's sequence is one
more than the number of earlier records in the same call sharing its prefix
(reset per call), and on the records `[(1.2.3.4,P1), (1.2.5.6,P2),
(9.9.9.9,P3)]` the emitted labels carry sequences `01`, `02`, `01`. -/
theorem label_sequence_counters :
    (∀ cfg : Config, ∀ today : List Char, ∀ pairs : List (List Char × Nat),
      generate_vless_nodes cfg today pairs = generateVlessSpec cfg today [] pairs) ∧
    (∀ cfg : Config, ∀ today : List Char, ∀ p1 p2 p3 : Nat,
      generate_vless_nodes cfg today
          [(chars "1.2.3.4", p1), (chars "1.2.5.6", p2), (chars "9.9.9.9", p3)] =
        [create_vless_link cfg (chars "1.2.3.4")
           (if cfg.FORCE_PORT_443 then 443 else p1)
           (generate_remark cfg today (if cfg.FORCE_PORT_443 then 443 else p1)
             (chars "1.2.3.4") 1),
         create_vless_link cfg (chars "1.2.5.6")
           (if cfg.FORCE_PORT_443 then 443 else p2)
           (generate_remark cfg today (if cfg.FORCE_PORT_443 then 443 else p2)
             (chars "1.2.5.6") 2),
         create_vless_link cfg (chars "9.9.9.9")
           (if cfg.FORCE_PORT_443 then 443 else p3)
           (generate_remark cfg today (if cfg.FORCE_PORT_443 then 443 else p3)
             (chars "9.9.9.9") 1)]) := by
  constructor
  · intro cfg today pairs
    exact generateVlessGo_spec cfg today pairs _ [] (fun p => rfl)
  · intro cfg today p1 p2 p3
    rfl

/-- Gregorian leap year, as `datetime` uses it. -/
def isLeapYear (y : Nat) : Bool :=
  (y % 4 == 0 && y % 100 != 0) || y % 400 == 0

/-- Days in a month, as `datetime` validates the day. -/
def daysInMonth (y m : Nat) : Nat :=
  if m = 2 then (if isLeapYear y then 29 else 28)
  else if m = 4 ∨ m = 6 ∨ m = 9 ∨ m = 11 then 30
  else 31

/-- `datetime.datetime(year, month, day)`: `none` models the `ValueError` the
constructor raises on an out-of-range year, month or day. -/
def mkPyDate (y m d : Nat) : Option PyDateTime :=
  if 1 ≤ y ∧ y ≤ 9999 ∧ 1 ≤ m ∧ m ≤ 12 ∧ 1 ≤ d ∧ d ≤ daysInMonth y m
  then some ⟨y, m, d, 0, 0, 0⟩ else none

/-- Days since the civil epoch (the standard days-from-civil algorithm,
valid for years ≥ 1): gives `datetime`'s date ordering. -/
def daysFromCivil (y m d : Nat) : Nat :=
  let yy := y - (if m ≤ 2 then 1 else 0)
  let era := yy / 400
  let yoe := yy % 400
  let mp := (m + 9) % 12
  let doy := (153 * mp + 2) / 5 + d - 1
  let doe := yoe * 365 + yoe / 4 - yoe / 100 + doy
  era * 146097 + doe

/-- A `datetime` value in seconds, for `datetime` comparisons and
`timedelta` subtraction. -/
def pyDateTimeOrd (t : PyDateTime) : Int :=
  (daysFromCivil t.year t.month t.day : Int) * 86400
    + t.hour * 3600 + t.minute * 60 + t.second

/-- `re.search(r'自选(\d{2})(\d{2})', node)`
(src/utils/node_manager.py:83): the leftmost literal `自选` followed by four
digits; yields the two-digit month and day values. -/
def findZixuan : List Char → Option (Nat × Nat)
  | [] => none
  | c :: rest =>
      if c = '自' then
        match rest with
        | '选' :: d1 :: d2 :: d3 :: d4 :: _ =>
            if d1.isDigit && d2.isDigit && d3.isDigit && d4.isDigit
            then some (digitsToNat [d1, d2], digitsToNat [d3, d4])
            else findZixuan rest
        | _ => findZixuan rest
      else findZixuan rest

/-- A `-` or `_` separator of the fallback date pattern. -/
def sepDash (c : Char) : Bool := c = '-' || c = '_'

/-- The fixed-length pattern `(\d{4})[-_](\d{2})[-_](\d{2})` anchored at the
start of `l` (src/utils/node_manager.py:100). -/
def matchYMDAt (l : List Char) : Option (Nat × Nat × Nat) :=
  match l with
  | a :: b :: c :: d :: s1 :: e :: f :: s2 :: g :: h :: _ =>
      if a.isDigit && b.isDigit && c.isDigit && d.isDigit && sepDash s1 &&
         e.isDigit && f.isDigit && sepDash s2 && g.isDigit && h.isDigit
      then some (digitsToNat [a, b, c, d], digitsToNat [e, f], digitsToNat [g, h])
      else none
  | _ => none

/-- `re.search` of the fallback pattern: leftmost match. -/
def findYMD : List Char → Option (Nat × Nat × Nat)
  | [] => none
  | c :: rest =>
      match matchYMDAt (c :: rest) with
      | some r => some r
      | none => findYMD rest

/-- The fallback `YYYY-MM-DD` / `YYYY_MM_DD` branch of
`NodeManager._extract_date_from_node` (src/utils/node_manager.py:99-107): a
match whose `datetime` constructor raises is swallowed and yields `None`. -/
def extractDateFallback (node : List Char) : Option PyDateTime :=
  match findYMD node with
  | some (y, m, d) => mkPyDate y m d
  | none => none

/-- `NodeManager._extract_date_from_node` (src/utils/node_manager.py:78-109):
the `自选MMDD` pattern with year-rollover first (an invalid date falls
through), then the `YYYY-MM-DD`/`YYYY_MM_DD` pattern. -/
def extract_date_from_node (now : PyDateTime) (node : List Char) :
    Option PyDateTime :=
  match findZixuan node with
  | some (m, d) =>
      let y := if now.month < m then now.year - 1 else now.year
      match mkPyDate y m d with
      | some dt => some dt
      | none => extractDateFallback node
  | none => extractDateFallback node

/-- The loop of `NodeManager.filter_nodes_by_age`
(src/utils/node_manager.py:52-63): keep a node when its extracted date is at
least `now - timedelta(days=MAX_DAYS_TO_KEEP)`, or when no date can be
extracted. -/
def filterAgeGo (cfg : Config) (now : PyDateTime) :
    List (List Char) → List (List Char)
  | [] => []
  | node :: rest =>
      match extract_date_from_node now node with
      | some d =>
          if pyDateTimeOrd now - 86400 * (cfg.MAX_DAYS_TO_KEEP : Int)
              ≤ pyDateTimeOrd d
          then node :: filterAgeGo cfg now rest
          else filterAgeGo cfg now rest
      | none => node :: filterAgeGo cfg now rest

/-- `NodeManager.filter_nodes_by_age` (src/utils/node_manager.py:39-63). -/
def filter_nodes_by_age (cfg : Config) (now : PyDateTime)
    (nodes : List (List Char)) : List (List Char) :=
  if !cfg.AUTO_DELETE_OLD_NODES then nodes else filterAgeGo cfg now nodes

/-- The claim's keep-predicate: retain iff no date extracted (fail open) or
the date is within the retention window. -/
def keepNode (cfg : Config) (now : PyDateTime) (node : List Char) : Bool :=
  match extract_date_from_node now node with
  | some d =>
      decide (pyDateTimeOrd now - 86400 * (cfg.MAX_DAYS_TO_KEEP : Int)
        ≤ pyDateTimeOrd d)
  | none => true

/-- Follows the spec's wording for label dates: the configured label prefix
followed by `MMDD` (year inferred with the rollover rule), with the
`YYYY-MM-DD`/`YYYY_MM_DD` fallback. -/
def findSubAfter (pat : List Char) : List Char → Option (List Char)
  | [] => if pat.isEmpty then some [] else none
  | c :: rest =>
      if pat.isPrefixOf (c :: rest) then some ((c :: rest).drop pat.length)
      else findSubAfter pat rest

/-- Follows the spec's wording: the label-embedded date of a node, parsed as
`{REMARKS_PREFIX}MMDD` (year rollover as in the claim) or as
`YYYY-MM-DD`/`YYYY_MM_DD`. -/
def specLabelDate (cfg : Config) (now : PyDateTime) (node : List Char) :
    Option PyDateTime :=
  match findSubAfter cfg.REMARKS_PREFIX node with
  | some (d1 :: d2 :: d3 :: d4 :: _) =>
      if d1.isDigit && d2.isDigit && d3.isDigit && d4.isDigit then
        let m := digitsToNat [d1, d2]
        let d := digitsToNat [d3, d4]
        let y := if now.month < m then now.year - 1 else now.year
        mkPyDate y m d
      else extractDateFallback node
  | _ => extractDateFallback node

lemma digitCharVal {k : Nat} (h : k < 10) :
    (Char.ofNat (48 + k)).toNat = 48 + k ∧ (Char.ofNat (48 + k)).isDigit = true := by
  interval_cases k <;> exact ⟨by decide, by decide⟩

lemma digitsToNat_append_one (l : List Char) (c : Char) :
    digitsToNat (l ++ [c]) = digitsToNat l * 10 + (c.toNat - 48) := by
  simp [digitsToNat, List.foldl_append]

lemma natDigitsAux_spec :
    ∀ fuel n, n < 10 ^ (fuel + 1) →
      natDigitsAux (fuel + 1) n ≠ [] ∧
      (∀ c ∈ natDigitsAux (fuel + 1) n, c.isDigit = true) ∧
      digitsToNat (natDigitsAux (fuel + 1) n) = n := by
  intro fuel
  induction fuel with
  | zero =>
    intro n h
    have h10 : n < 10 := by simpa using h
    simp only [natDigitsAux, if_pos h10]
    refine ⟨by simp, ?_, ?_⟩
    · intro c hc
      rw [List.mem_singleton] at hc
      subst hc
      exact (digitCharVal h10).2
    · simp [digitsToNat, (digitCharVal h10).1]
  | succ fuel ih =>
    intro n h
    by_cases h10 : n < 10
    · simp only [natDigitsAux, if_pos h10]
      refine ⟨by simp, ?_, ?_⟩
      · intro c hc
        rw [List.mem_singleton] at hc
        subst hc
        exact (digitCharVal h10).2
      · simp [digitsToNat, (digitCharVal h10).1]
    · have heq : natDigitsAux (fuel + 1 + 1) n
          = natDigitsAux (fuel + 1) (n / 10) ++ [Char.ofNat (48 + n % 10)] := by
        conv_lhs => rw [natDigitsAux]
        rw [if_neg h10]
      have hdiv : n / 10 < 10 ^ (fuel + 1) := by
        rw [Nat.div_lt_iff_lt_mul (by omega)]
        calc n < 10 ^ (fuel + 1 + 1) := h
        _ = 10 ^ (fuel + 1) * 10 := by ring
      obtain ⟨hne, hdig, hval⟩ := ih (n / 10) hdiv
      have hm : n % 10 < 10 := Nat.mod_lt _ (by omega)
      rw [heq]
      refine ⟨by simp, ?_, ?_⟩
      · intro c hc
        rcases List.mem_append.mp hc with hc | hc
        · exact hdig c hc
        · rw [List.mem_singleton] at hc
          subst hc
          exact (digitCharVal hm).2
      · rw [digitsToNat_append_one, hval, (digitCharVal hm).1]
        omega

lemma natDigits_spec (n : Nat) :
    natDigits n ≠ [] ∧ (∀ c ∈ natDigits n, c.isDigit = true) ∧
      digitsToNat (natDigits n) = n := by
  refine natDigitsAux_spec n n ?_
  calc n < 10 ^ n := Nat.lt_pow_self (by norm_num) n
  _ ≤ 10 ^ (n + 1) := Nat.pow_le_pow_right (by norm_num) (Nat.le_succ n)

lemma zfill2_two {n : Nat} (h : n ≤ 99) :
    (zfill2 n).length = 2 ∧ (∀ c ∈ zfill2 n, c.isDigit = true) ∧
      digitsToNat (zfill2 n) = n := by
  interval_cases n <;> refine ⟨by decide, by decide, by decide⟩

lemma list_len2 {l : List Char} (h : l.length = 2) : ∃ a b, l = [a, b] := by
  match l, h with
  | [a, b], _ => exact ⟨a, b, rfl⟩

lemma findZixuan_at_start (a b c d : Char) (post : List Char)
    (ha : a.isDigit = true) (hb : b.isDigit = true) (hc : c.isDigit = true)
    (hd : d.isDigit = true) :
    findZixuan ('自' :: '选' :: a :: b :: c :: d :: post)
      = some (digitsToNat [a, b], digitsToNat [c, d]) := by
  simp [findZixuan, ha, hb, hc, hd]

/-- C8 counterexample.  With the default configuration (prefix `香港节点-`,
10-day window, filtering enabled) and now = 2026-10-12, the node labelled
`香港节点-0101-…` embeds the date 2026-01-01 under the claim's
`{prefix}MMDD` reading — far older than the cutoff — yet the code extracts no
date from it (its regex wants the literal `自选`) and retains it. -/
theorem filter_age_ignores_configured_label :
    specLabelDate cfgTest ⟨2026, 10, 12, 0, 0, 0⟩
        (chars "香港节点-0101-01-443-1.2.3.4") = some ⟨2026, 1, 1, 0, 0, 0⟩ ∧
    pyDateTimeOrd ⟨2026, 1, 1, 0, 0, 0⟩ <
      pyDateTimeOrd ⟨2026, 10, 12, 0, 0, 0⟩
        - 86400 * (cfgTest.MAX_DAYS_TO_KEEP : Int) ∧
    extract_date_from_node ⟨2026, 10, 12, 0, 0, 0⟩
        (chars "香港节点-0101-01-443-1.2.3.4") = none ∧
    filter_nodes_by_age cfgTest ⟨2026, 10, 12, 0, 0, 0⟩
        [chars "香港节点-0101-01-443-1.2.3.4"]
      = [chars "香港节点-0101-01-443-1.2.3.4"] := by
  refine ⟨by decide, by decide, by decide, by decide⟩

/-- C8 (amended).  When enabled, the age filter keeps exactly the nodes whose
extracted date is within `now - window`, retaining every node without an
extractable date (fail open); when disabled it passes nodes through.  But the
first date pattern is the fixed literal `自选` followed by `MMDD` (with the
year-rollover rule) — the configured label prefix is never consulted — and
the fallback is `YYYY-MM-DD`/`YYYY_MM_DD`. -/
theorem filter_age_characterization :
    (∀ cfg : Config, ∀ now : PyDateTime, ∀ nodes : List (List Char),
      cfg.AUTO_DELETE_OLD_NODES = true →
      filter_nodes_by_age cfg now nodes = nodes.filter (keepNode cfg now)) ∧
    (∀ cfg : Config, ∀ now : PyDateTime, ∀ nodes : List (List Char),
      cfg.AUTO_DELETE_OLD_NODES = false →
      filter_nodes_by_age cfg now nodes = nodes) ∧
    (∀ now : PyDateTime, ∀ mm dd : Nat, ∀ post : List Char, ∀ dt : PyDateTime,
      mm ≤ 99 → dd ≤ 99 →
      mkPyDate (if now.month < mm then now.year - 1 else now.year) mm dd
        = some dt →
      extract_date_from_node now (chars "自选" ++ zfill2 mm ++ zfill2 dd ++ post)
        = some dt) ∧
    (∀ now : PyDateTime,
      extract_date_from_node now (chars "x2024-03-05")
        = some ⟨2024, 3, 5, 0, 0, 0⟩) := by
  refine ⟨?_, ?_, ?_, fun now => rfl⟩
  · intro cfg now nodes hauto
    rw [filter_nodes_by_age, hauto]
    simp only [Bool.not_true, Bool.false_eq_true, if_false]
    induction nodes with
    | nil => rfl
    | cons node rest ih =>
      simp only [filterAgeGo, List.filter]
      rcases hx : extract_date_from_node now node with - | d
      · simp [keepNode, hx, ih]
      · simp only [keepNode, hx]
        by_cases hcut : pyDateTimeOrd now - 86400 * (cfg.MAX_DAYS_TO_KEEP : Int)
            ≤ pyDateTimeOrd d
        · simp [hcut, ih]
        · simp [hcut, ih]
  · intro cfg now nodes hauto
    simp [filter_nodes_by_age, hauto]
  · intro now mm dd post dt h99m h99d hmk
    obtain ⟨hlm, hdm, hvm⟩ := zfill2_two h99m
    obtain ⟨hld, hdd, hvd⟩ := zfill2_two h99d
    obtain ⟨a, b, hab⟩ := list_len2 hlm
    obtain ⟨c, d, hcd⟩ := list_len2 hld
    rw [hab] at hdm hvm
    rw [hcd] at hdd hvd
    have hnode : chars "自选" ++ zfill2 mm ++ zfill2 dd ++ post
        = '自' :: '选' :: a :: b :: c :: d :: post := by
      rw [hab, hcd]; rfl
    rw [hnode, extract_date_from_node,
      findZixuan_at_start a b c d post (hdm a (by simp)) (hdm b (by simp))
        (hdd c (by simp)) (hdd d (by simp)), hvm, hvd]
    simp [hmk]

/-- Models Python `s.split(sep, 1)` when `sep` occurs: the text before the
first occurrence and the text after it (`none` when `sep` is absent, which
also models the `sep in s` tests). -/
def splitOnce (sep : Char) : List Char → Option (List Char × List Char)
  | [] => none
  | c :: rest =>
      if c = sep then some ([], rest)
      else (splitOnce sep rest).map (fun p => (c :: p.1, p.2))

/-- Models Python `s.rsplit(sep, 1)` when `sep` occurs: split at the last
occurrence. -/
def rsplitOnce (sep : Char) (l : List Char) : Option (List Char × List Char) :=
  match splitOnce sep l.reverse with
  | some (a, b) => some (b.reverse, a.reverse)
  | none => none

/-- Whether `pat` occurs as a contiguous substring (Python `pat in s`). -/
def hasSubstr (pat : List Char) : List Char → Bool
  | [] => pat.isEmpty
  | l@(_ :: rest) => pat.isPrefixOf l || hasSubstr pat rest

/-- The value of a hex digit. -/
def hexVal (c : Char) : Option Nat :=
  if c.isDigit then some (c.toNat - 48)
  else if 'A' ≤ c ∧ c ≤ 'F' then some (c.toNat - 55)
  else if 'a' ≤ c ∧ c ≤ 'f' then some (c.toNat - 87)
  else none

/-- A maximal run of valid `%XX` triples, as bytes, with the unconsumed
rest. -/
def pctRun : List Char → List Nat × List Char
  | '%' :: h1 :: h2 :: rest =>
      match hexVal h1, hexVal h2 with
      | some a, some b =>
          let r := pctRun rest
          ((a * 16 + b) :: r.1, r.2)
      | _, _ => ([], '%' :: h1 :: h2 :: rest)
  | l => ([], l)

/-- The Unicode replacement character. -/
def replChar : Char := Char.ofNat 65533

/-- UTF-8 decoding of a byte list, malformed sequences replaced (the
granularity of `errors='replace'` is approximated: one replacement character
per rejected byte). -/
def utf8DecodeAux : Nat → List Nat → List Char
  | 0, _ => []
  | _ + 1, [] => []
  | fuel + 1, b :: rest =>
      if b < 128 then Char.ofNat b :: utf8DecodeAux fuel rest
      else if 192 ≤ b ∧ b < 224 then
        match rest with
        | b2 :: r2 =>
            if 128 ≤ b2 ∧ b2 < 192
            then Char.ofNat ((b - 192) * 64 + (b2 - 128)) :: utf8DecodeAux fuel r2
            else replChar :: utf8DecodeAux fuel rest
        | [] => [replChar]
      else if 224 ≤ b ∧ b < 240 then
        match rest with
        | b2 :: b3 :: r3 =>
            if (128 ≤ b2 ∧ b2 < 192) ∧ (128 ≤ b3 ∧ b3 < 192)
            then Char.ofNat ((b - 224) * 4096 + (b2 - 128) * 64 + (b3 - 128)) ::
                   utf8DecodeAux fuel r3
            else replChar :: utf8DecodeAux fuel rest
        | _ => replChar :: utf8DecodeAux fuel rest
      else if 240 ≤ b ∧ b < 248 then
        match rest with
        | b2 :: b3 :: b4 :: r4 =>
            if (128 ≤ b2 ∧ b2 < 192) ∧ (128 ≤ b3 ∧ b3 < 192) ∧ (128 ≤ b4 ∧ b4 < 192)
            then Char.ofNat ((b - 240) * 262144 + (b2 - 128) * 4096
                   + (b3 - 128) * 64 + (b4 - 128)) :: utf8DecodeAux fuel r4
            else replChar :: utf8DecodeAux fuel rest
        | _ => replChar :: utf8DecodeAux fuel rest
      else replChar :: utf8DecodeAux fuel rest

/-- UTF-8 decoding with replacement on malformed input. -/
def utf8Decode (bs : List Nat) : List Char := utf8DecodeAux (bs.length + 1) bs

/-- Models `urllib.parse.unquote`: maximal runs of valid `%XX` triples are
percent-decoded to bytes and UTF-8 decoded (replacement on error); an invalid
`%` sequence is left literal.  On fuel so that the definition evaluates by
reduction; the fuel never runs out on `pyUnquote`'s call. -/
def pyUnquoteAux : Nat → List Char → List Char
  | 0, l => l
  | _ + 1, [] => []
  | fuel + 1, '%' :: h1 :: h2 :: rest =>
      match hexVal h1, hexVal h2 with
      | some _, some _ =>
          let r := pctRun ('%' :: h1 :: h2 :: rest)
          utf8Decode r.1 ++ pyUnquoteAux fuel r.2
      | _, _ => '%' :: pyUnquoteAux fuel (h1 :: h2 :: rest)
  | fuel + 1, c :: rest => c :: pyUnquoteAux fuel rest

/-- Models `urllib.parse.unquote`. -/
def pyUnquote (s : List Char) : List Char := pyUnquoteAux (s.length + 1) s

/-- Python `str(i)` for an int (the port can be negative through `int`'s sign
handling). -/
def intRepr (i : Int) : List Char :=
  if i < 0 then '-' :: natDigits i.natAbs else natDigits i.toNat

/-- The fields `YamlGenerator._parse_vless_url`
(src/utils/yaml_generator.py:52-128) extracts into `proxy_info` (the constant
`type: vless`, `udp: true`, `skip-cert-verify: false` entries are emitted
literally by the renderer). -/
structure Proxy where
  name : List Char
  server : List Char
  port : Int
  uuid : List Char
  network : List Char
  tls : Bool
  sni : List Char
  host : List Char
  path : List Char
  alpn : List (List Char)
  fingerprint : List Char
  deriving DecidableEq

/-- The query parameters: split on `'&'`, keep `key=value` pieces, values
unquoted; a dict, so a repeated key keeps its last value. -/
def parseParams (q : List Char) : List (List Char × List Char) :=
  (pySplit '&' q).filterMap (fun param =>
    match splitOnce '=' param with
    | some (k, v) => some (k, pyUnquote v)
    | none => none)

/-- `params.get(key)` with dict overwrite semantics (last value wins). -/
def paramGet? (ps : List (List Char × List Char)) (k : List Char) :
    Option (List Char) :=
  (ps.reverse.find? (fun e => e.1 == k)).map Prod.snd

/-- `params.get(key, dflt)`. -/
def paramGet (ps : List (List Char × List Char)) (k dflt : List Char) :
    List Char :=
  (paramGet? ps k).getD dflt

/-- `YamlGenerator._parse_vless_url` (src/utils/yaml_generator.py:52-128):
`none` models the raised `ValueError`s (missing `vless://` scheme, missing
`'@'`, missing `':'` in the server part); a non-numeric port does not fail
but falls back to `config.DEFAULT_PORT`. -/
def parse_vless_url (cfg : Config) (url : List Char) : Option Proxy :=
  if !(chars "vless://").isPrefixOf url then none
  else
    let u := url.drop 8
    match splitOnce '@' u with
    | none => none
    | some (uuid, rest) =>
        let spq : List Char × List Char :=
          match splitOnce '?' rest with
          | some (sp, q) => (sp, q)
          | none => (rest, [])
        match rsplitOnce ':' spq.1 with
        | none => none
        | some (server, port_str) =>
            let port : Int :=
              match pyInt port_str with
              | some v => v
              | none => (cfg.DEFAULT_PORT : Int)
            let qr : List Char × List Char :=
              match splitOnce '#' spq.2 with
              | some (q, r) => (q, pyUnquote r)
              | none => (spq.2, [])
            let params := parseParams qr.1
            let alpn_param := paramGet params (chars "alpn") []
            let alpn_list :=
              if alpn_param.isEmpty then [chars "h2", chars "http/1.1"]
              else (pySplit ',' alpn_param).filterMap
                (fun a => let s := pyStrip a; if s.isEmpty then none else some s)
            some {
              name := if qr.2.isEmpty
                then chars "节点-" ++ server ++ ':' :: intRepr port
                else qr.2
              server := server
              port := port
              uuid := uuid
              network := paramGet params (chars "type") (chars "ws")
              tls := paramGet? params (chars "security") == some (chars "tls")
              sni := paramGet params (chars "sni") cfg.SNI
              host := paramGet params (chars "host") cfg.HOST
              path := paramGet params (chars "path") cfg.CUSTOM_PATH
              alpn := alpn_list
              fingerprint := paramGet params (chars "fp") cfg.FINGERPRINT }

/-- Models Python `str.isprintable` (ASCII exactly; printability of the
non-ASCII range is approximated as codepoints above 160, which covers every
character the repository emits). -/
def pyIsPrintable (c : Char) : Bool :=
  (32 ≤ c.toNat && c.toNat < 127) || 160 < c.toNat

/-- The character class the name sanitizer removes,
`re.sub(r'[{}<>\[\]|&*#!%^@`~]', '', …)` (src/utils/yaml_generator.py:168). -/
def sanitizeRemoved (c : Char) : Bool :=
  c = Char.ofNat 123 || c = Char.ofNat 125 || c = '<' || c = '>' || c = '[' ||
  c = ']' || c = '|' || c = '&' || c = '*' || c = '#' || c = '!' || c = '%' ||
  c = '^' || c = '@' || c = Char.ofNat 96 || c = '~'

/-- The proxy-name sanitization of `_build_yaml_content`
(src/utils/yaml_generator.py:154-173): keep printable/whitespace characters,
delete newlines and carriage returns, strip; an emptied name falls back to
`节点-{server}:{port}`; then delete the removed class and strip again. -/
def sanitizeName (server : List Char) (port : Int) (orig : List Char) :
    List Char :=
  let s1 := orig.filter (fun c => pyIsPrintable c || pyIsSpace c)
  let s2 := s1.filter (fun c => !(c = '\n') && !(c = '\x0d'))
  let s3 := pyStrip s2
  let s4 := if s3.isEmpty then chars "节点-" ++ server ++ ':' :: intRepr port
            else s3
  pyStrip (s4.filter (fun c => !sanitizeRemoved c))

/-- The one proxies-section name line of a rendered proxy. -/
def nameLine (n : List Char) : List Char := chars "  - name: \"" ++ n ++ ['"']

/-- One selection-group member line. -/
def memberLine (n : List Char) : List Char := chars "      - \"" ++ n ++ ['"']

/-- The per-proxy lines of the proxies section
(src/utils/yaml_generator.py:176-213); the proxy's `name` is already
sanitized. -/
def proxyLines (p : Proxy) : List (List Char) :=
  [nameLine p.name,
   chars "    type: vless",
   chars "    server: \"" ++ p.server ++ ['"'],
   chars "    port: " ++ intRepr p.port,
   chars "    uuid: \"" ++ p.uuid ++ ['"'],
   chars "    network: \"" ++ p.network ++ ['"'],
   chars "    tls: " ++ (if p.tls then chars "true" else chars "false")] ++
  (if p.tls then
    (if !p.sni.isEmpty then [chars "    servername: \"" ++ p.sni ++ ['"']] else []) ++
    (if !p.fingerprint.isEmpty
     then [chars "    fingerprint: \"" ++ p.fingerprint ++ ['"']] else []) ++
    (if !p.alpn.isEmpty then
      chars "    alpn:" ::
        p.alpn.filterMap (fun it =>
          let s := pyStrip it
          if s.isEmpty then none else some (chars "      - \"" ++ s ++ ['"']))
     else [])
   else []) ++
  (if p.network = chars "ws" then
    [chars "    ws-opts:",
     chars "      path: \"" ++ p.path ++ ['"'],
     chars "      headers:",
     chars "        Host: \"" ++ p.host ++ ['"']]
   else []) ++
  [chars "    udp: true",
   chars "    skip-cert-verify: false",
   []]

/-- `n` left-padded with zeros to width `w`, as `strftime`'s numeric
fields. -/
def zpad (w n : Nat) : List Char :=
  let d := natDigits n
  List.replicate (w - d.length) '0' ++ d

/-- `datetime.now().strftime("%Y-%m-%d %H:%M:%S")`
(src/utils/yaml_generator.py:224). -/
def fmtTimestamp (now : PyDateTime) : List Char :=
  zpad 4 now.year ++ '-' :: zpad 2 now.month ++ '-' :: zpad 2 now.day ++
    ' ' :: zpad 2 now.hour ++ ':' :: zpad 2 now.minute ++ ':' :: zpad 2 now.second

/-- The fixed header of the generated template
(src/utils/yaml_generator.py:227-238), with the proxy count and timestamp
interpolations. -/
def headerLines (ts : List Char) (n : Nat) : List (List Char) :=
  [chars "# Clash 配置",
   chars "# 生成时间: " ++ ts,
   chars "# 节点数量: " ++ natDigits n,
   [],
   chars "mixed-port: 7890",
   chars "socks-port: 7891",
   chars "allow-lan: true",
   chars "mode: rule",
   chars "log-level: info",
   chars "external-controller: 127.0.0.1:9090",
   [],
   chars "proxies:"]

/-- The proxy-groups and rules sections of the template
(src/utils/yaml_generator.py:241-279), with the member lists interpolated
twice. -/
def groupLines (names : List (List Char)) : List (List Char) :=
  [chars "proxy-groups:",
   chars "  - name: 🚀 节点选择",
   chars "    type: select",
   chars "    proxies:"] ++ names.map memberLine ++
  [chars "  - name: ♻️ 自动选择",
   chars "    type: url-test",
   chars "    url: http://www.gstatic.com/generate_204",
   chars "    interval: 300",
   chars "    proxies:"] ++ names.map memberLine ++
  [chars "  - name: 📲 国外媒体",
   chars "    type: select",
   chars "    proxies:",
   chars "      - 🚀 节点选择",
   chars "      - ♻️ 自动选择",
   chars "      - DIRECT",
   [],
   chars "rules:",
   chars "  - DOMAIN-SUFFIX,openai.com,📲 国外媒体",
   chars "  - DOMAIN-SUFFIX,chatgpt.com,📲 国外媒体",
   chars "  - DOMAIN-SUFFIX,bing.com,📲 国外媒体",
   chars "  - DOMAIN-SUFFIX,github.com,📲 国外媒体",
   chars "  - DOMAIN-SUFFIX,gitlab.com,📲 国外媒体",
   chars "  - DOMAIN-SUFFIX,twitter.com,📲 国外媒体",
   chars "  - DOMAIN-SUFFIX,facebook.com,📲 国外媒体",
   chars "  - DOMAIN-SUFFIX,instagram.com,📲 国外媒体",
   chars "  - DOMAIN-SUFFIX,youtube.com,📲 国外媒体",
   chars "  - DOMAIN-SUFFIX,netflix.com,📲 国外媒体",
   chars "  - DOMAIN-SUFFIX,disneyplus.com,📲 国外媒体",
   chars "  - DOMAIN-SUFFIX,spotify.com,📲 国外媒体",
   chars "  - DOMAIN-SUFFIX,telegram.org,📲 国外媒体",
   chars "  - DOMAIN-SUFFIX,whatsapp.com,📲 国外媒体",
   chars "  - DOMAIN-SUFFIX,discord.com,📲 国外媒体",
   chars "  - DOMAIN-SUFFIX,google.com,📲 国外媒体",
   chars "  - DOMAIN-SUFFIX,gstatic.com,📲 国外媒体",
   chars "  - GEOIP,CN,DIRECT",
   chars "  - MATCH,🚀 节点选择"]

/-- The whole pre-validation template, as lines. -/
def buildLines (safe : List Proxy) (ts : List Char) : List (List Char) :=
  headerLines ts safe.length ++ (safe.map proxyLines).flatten ++ [[]] ++
    groupLines (safe.map Proxy.name)

/-- Lines joined with `'\n'`. -/
def joinLines : List (List Char) → List Char
  | [] => []
  | [l] => l
  | l :: ls => l ++ '\n' :: joinLines ls

/-- The characters of `':[]{}#&*!|>\%@`\''` — a value containing any of them
is re-quoted by `_validate_yaml` (src/utils/yaml_generator.py:325). -/
def valueNeedsQuote (c : Char) : Bool :=
  c = ':' || c = '[' || c = ']' || c = Char.ofNat 123 || c = Char.ofNat 125 ||
  c = '#' || c = '&' || c = '*' || c = '!' || c = '|' || c = '>' || c = '\\' ||
  c = '%' || c = '@' || c = Char.ofNat 96 || c = Char.ofNat 39

/-- `value.replace('"', '\\"')` (src/utils/yaml_generator.py:327). -/
def escQuotes (l : List Char) : List Char :=
  (l.map (fun c => if c = '"' then ['\\', '"'] else [c])).flatten

/-- `len(line) - len(line.lstrip())`: the leading-whitespace count. -/
def indentOf (line : List Char) : Nat := (line.takeWhile pyIsSpace).length

/-- The key/value rebuild `_validate_yaml` applies to a line containing `':'`
outside an alpn list (src/utils/yaml_generator.py:313-332): split at the
first colon, strip both sides, re-indent with spaces, and re-quote the value
when it contains a structurally significant character. -/
def rebuildLine (line : List Char) : List Char :=
  match splitOnce ':' line with
  | none => line
  | some (k0, v0) =>
      let key := pyStrip k0
      let value := pyStrip v0
      if value.isEmpty then List.replicate (indentOf line) ' ' ++ key ++ [':']
      else if value.any valueNeedsQuote then
        List.replicate (indentOf line) ' ' ++ key ++ chars ": \"" ++
          escQuotes value ++ ['"']
      else List.replicate (indentOf line) ' ' ++ key ++ chars ": " ++ value

/-- One iteration of the `_validate_yaml` loop
(src/utils/yaml_generator.py:294-334) over the state
`(in_alpn_list, alpn_indent)`: rstrip; blank lines become `''` and leave the
alpn list; a non-comment line containing `alpn:` enters it; a dedented line
leaves it and is processed; lines inside it pass through untouched. -/
def valStep (st : Bool × Nat) (line0 : List Char) : (Bool × Nat) × List Char :=
  let line := pyRStrip line0
  if (pyStrip line).isEmpty then ((false, st.2), [])
  else if hasSubstr (chars "alpn:") line && !((pyStrip line).head? == some '#')
  then ((true, indentOf line), line)
  else
    let st1 := if st.1 && decide (indentOf line ≤ st.2) then (false, st.2) else st
    if st1.1 then (st1, line) else (st1, rebuildLine line)

/-- The `_validate_yaml` loop over all lines. -/
def valAccum (st : Bool × Nat) : List (List Char) → List (List Char)
  | [] => []
  | l :: ls =>
      let r := valStep st l
      r.2 :: valAccum r.1 ls

/-- The state after processing a list of lines. -/
def valFinal (st : Bool × Nat) : List (List Char) → Bool × Nat
  | [] => st
  | l :: ls => valFinal (valStep st l).1 ls

/-- The final trailing-blank pop of `_validate_yaml`
(src/utils/yaml_generator.py:337-338). -/
def dropTrailingBlanks (ls : List (List Char)) : List (List Char) :=
  (ls.reverse.dropWhile (fun l => (pyStrip l).isEmpty)).reverse

/-- `YamlGenerator._validate_yaml` (src/utils/yaml_generator.py:284-340). -/
def validate_yaml (content : List Char) : List Char :=
  joinLines (dropTrailingBlanks (valAccum (false, 0) (pySplit '\n' (pyStrip content))))

/-- The minimal document `_build_yaml_content` returns when no proxy parsed
(src/utils/yaml_generator.py:136-148), returned without validation. -/
def minimalYaml : List Char :=
  chars "mixed-port: 7890\nallow-lan: true\nmode: rule\nlog-level: info\nproxies: []\nproxy-groups:\n  - name: 🚀 代理\n    type: select\n    proxies: []\nrules:\n  - GEOIP,CN,DIRECT\n  - MATCH,🚀 代理\n"

/-- `YamlGenerator._generate_empty_yaml` (src/utils/yaml_generator.py:342-357),
returned directly for an empty node list. -/
def emptyYamlGen : List Char :=
  chars "mixed-port: 7890\nallow-lan: true\nmode: rule\nlog-level: info\nproxies: []\nproxy-groups:\n  - name: 🚀 代理\n    type: select\n    proxies: []\nrules:\n  - GEOIP,CN,DIRECT\n  - MATCH,🚀 代理\n"

/-- `YamlGenerator._build_yaml_content` (src/utils/yaml_generator.py:130-282):
sanitize the names, render the template, validate it. -/
def build_yaml_content (proxies : List Proxy) (now : PyDateTime) : List Char :=
  if proxies.isEmpty then minimalYaml
  else
    let safe := proxies.map (fun p =>
      { p with name := sanitizeName p.server p.port p.name })
    validate_yaml (joinLines (buildLines safe (fmtTimestamp now)) ++ ['\n'])

/-- `YamlGenerator.generate_clash_yaml` (src/utils/yaml_generator.py:13-49):
parse every node, skipping the ones that raise, and render the survivors; an
empty node list short-circuits to the empty document. -/
def generate_clash_yaml (nodes : List (List Char)) (cfg : Config)
    (now : PyDateTime) : List Char :=
  if nodes.isEmpty then emptyYamlGen
  else build_yaml_content (nodes.filterMap (parse_vless_url cfg)) now

/-- The proxies-section name token of a document line: the text between the
quotes of a `  - name: "…"` line. -/
def nameTok (l : List Char) : Option (List Char) :=
  if (chars "  - name: \"").isPrefixOf l && l.getLast? == some '"' &&
      decide (12 ≤ l.length)
  then some ((l.drop 11).dropLast) else none

/-- The group-member token of a document line: the text between the quotes of
a `      - "…"` line. -/
def memberTok (l : List Char) : Option (List Char) :=
  if (chars "      - \"").isPrefixOf l && l.getLast? == some '"' &&
      decide (10 ≤ l.length)
  then some ((l.drop 9).dropLast) else none

/-- The name of every node in the rendered document's top-level proxies
list. -/
def extractProxyNames (doc : List Char) : List (List Char) :=
  (pySplit '\n' doc).filterMap nameTok

/-- The member names of the two selection groups: the quoted member lines
after the `proxy-groups:` line. -/
def extractGroupMembers (doc : List Char) : List (List Char) :=
  ((pySplit '\n' doc).dropWhile (fun l => !(l == chars "proxy-groups:"))).filterMap
    memberTok

/-- A fixed `now` for concrete evaluations. -/
def nowTest : PyDateTime := ⟨2026, 10, 12, 0, 0, 0⟩

set_option maxRecDepth 100000

/-- C4 counterexample.  The claim lists a non-numeric port among the parse
failures, but `_parse_vless_url` does not fail on `"vless://u@1.2.3.4:abc"`:
the port falls back to 443 and the node still contributes a rendered entry. -/
theorem parse_defaults_nonnumeric_port :
    (parse_vless_url cfgTest (chars "vless://u@1.2.3.4:abc")).isSome = true ∧
    (parse_vless_url cfgTest (chars "vless://u@1.2.3.4:abc")).map Proxy.port
      = some 443 ∧
    (extractProxyNames
        (generate_clash_yaml [chars "vless://u@1.2.3.4:abc"] cfgTest nowTest)).length
      = 1 := by
  refine ⟨by decide, by decide, by decide⟩

/-- C5 counterexample.  On the single node `"vless://u@1.2.3.4:443"` (no
fragment, so the fallback name `节点-1.2.3.4:443` contains a colon),
`_validate_yaml` rewrites the two copies of the name differently: the group
member line becomes `- "节点-1.2.3.4: 443"` while the proxies name line
becomes `- name: "\"节点-1.2.3.4:443\""`, so the emitted group member name
appears nowhere in the top-level proxies list. -/
theorem group_member_name_escapes_proxies_list :
    extractGroupMembers
        (generate_clash_yaml [chars "vless://u@1.2.3.4:443"] cfgTest nowTest)
      = [chars "节点-1.2.3.4: 443", chars "节点-1.2.3.4: 443"] ∧
    ¬ (∀ m ∈ extractGroupMembers
          (generate_clash_yaml [chars "vless://u@1.2.3.4:443"] cfgTest nowTest),
        m ∈ extractProxyNames
          (generate_clash_yaml [chars "vless://u@1.2.3.4:443"] cfgTest nowTest)) := by
  refine ⟨by decide, by decide⟩

lemma pySplit_ne_nil (sep : Char) (l : List Char) : pySplit sep l ≠ [] := by
  cases l with
  | nil => simp [pySplit]
  | cons c rest =>
    simp only [pySplit]
    by_cases hc : c = sep
    · simp [hc]
    · rw [if_neg hc]
      cases pySplit sep rest <;> simp

lemma pySplit_chars (sep : Char) (l : List Char) :
    ∀ c ∈ l, c = sep ∨ ∃ p ∈ pySplit sep l, c ∈ p := by
  induction l with
  | nil => simp
  | cons a rest ih =>
    intro c hc
    by_cases ha : a = sep
    · subst ha
      rcases List.mem_cons.mp hc with heq | hc
      · exact Or.inl heq
      · rcases ih c hc with h | ⟨p, hp, hcp⟩
        · exact Or.inl h
        · exact Or.inr ⟨p, by simp [pySplit, hp], hcp⟩
    · rcases hps : pySplit sep rest with - | ⟨p, ps⟩
      · exact absurd hps (pySplit_ne_nil sep rest)
      · have hsplit : pySplit sep (a :: rest) = (a :: p) :: ps := by
          simp only [pySplit, if_neg ha, hps]
        rcases List.mem_cons.mp hc with heq | hc
        · exact Or.inr ⟨a :: p, by simp [hsplit], by simp [heq]⟩
        · rcases ih c hc with h | ⟨q, hq, hcq⟩
          · exact Or.inl h
          · rw [hps, List.mem_cons] at hq
            rcases hq with heq | hq
            · exact Or.inr ⟨a :: p, by simp [hsplit], by simp [heq ▸ hcq]⟩
            · exact Or.inr ⟨q, by simp [hsplit, hq], hcq⟩

lemma is_valid_ip_parts {s : List Char} (h : is_valid_ip s = true) :
    ∀ p ∈ pySplit '.' s, okOctet p = true := by
  simp only [is_valid_ip, Bool.and_eq_true, decide_eq_true_eq,
    List.all_eq_true] at h
  intro p hp
  simpa [okOctet] using h.2 p hp

lemma valid_ip_chars {ip : List Char} (h : is_valid_ip ip = true) :
    ∀ c ∈ ip, c.isDigit = true ∨ c = '.' := by
  intro c hc
  rcases pySplit_chars '.' ip c hc with h1 | ⟨p, hp, hcp⟩
  · exact Or.inr h1
  · exact Or.inl ((okOctet_props (is_valid_ip_parts h p hp)).2.1 c hcp)

lemma splitOnce_first (sep : Char) (a b : List Char) (h : sep ∉ a) :
    splitOnce sep (a ++ sep :: b) = some (a, b) := by
  induction a with
  | nil => simp [splitOnce]
  | cons c q ih =>
    rw [List.mem_cons, not_or] at h
    simp only [List.cons_append, splitOnce, if_neg (fun hc => h.1 (Eq.symm hc)),
      List.append_eq, ih h.2]
    rfl

lemma rsplitOnce_last (sep : Char) (a b : List Char) (h : sep ∉ b) :
    rsplitOnce sep (a ++ sep :: b) = some (a, b) := by
  unfold rsplitOnce
  rw [show (a ++ sep :: b).reverse = b.reverse ++ sep :: a.reverse from by simp,
    splitOnce_first sep _ _ (by simpa using h)]
  simp

lemma char_toNat_lt (c : Char) : c.toNat < 1114112 := by
  have h := c.valid
  have : c.toNat = c.val.toNat := rfl
  rcases h with h | h <;> omega

lemma utf8EncodeChar_lt (c : Char) : ∀ b ∈ utf8EncodeChar c, b < 256 := by
  intro b hb
  have hc := char_toNat_lt c
  simp only [utf8EncodeChar] at hb
  split_ifs at hb with h1 h2 h3 <;> simp only [List.mem_cons, List.mem_singleton,
    List.not_mem_nil, or_false] at hb <;> omega

lemma hexDigit_cases {m : Nat} (h : m < 16) :
    (hexDigit m).isDigit = true ∨ (65 ≤ (hexDigit m).toNat ∧ (hexDigit m).toNat ≤ 70) := by
  interval_cases m <;> decide

lemma mem_pyQuote {v : List Char} {c : Char} (hc : c ∈ pyQuote v) :
    quoteSafe c = true ∨ c = '%' ∨ c.isDigit = true ∨
      (65 ≤ c.toNat ∧ c.toNat ≤ 70) := by
  unfold pyQuote at hc
  rw [List.mem_flatten] at hc
  obtain ⟨piece, hpiece, hcp⟩ := hc
  rw [List.mem_map] at hpiece
  obtain ⟨x, -, hx⟩ := hpiece
  subst hx
  by_cases hsafe : quoteSafe x
  · rw [if_pos hsafe, List.mem_singleton] at hcp
    subst hcp
    exact Or.inl hsafe
  · rw [if_neg hsafe, List.mem_flatten] at hcp
    obtain ⟨enc, henc, hce⟩ := hcp
    rw [List.mem_map] at henc
    obtain ⟨byt, hbyt, hb⟩ := henc
    subst hb
    have hlt : byt < 256 := utf8EncodeChar_lt x byt hbyt
    simp only [pctEncodeByte, List.mem_cons, List.mem_singleton,
      List.not_mem_nil, or_false] at hce
    rcases hce with rfl | rfl | rfl
    · exact Or.inr (Or.inl rfl)
    · rcases hexDigit_cases (show byt / 16 < 16 by omega) with h | h
      · exact Or.inr (Or.inr (Or.inl h))
      · exact Or.inr (Or.inr (Or.inr h))
    · rcases hexDigit_cases (show byt % 16 < 16 by omega) with h | h
      · exact Or.inr (Or.inr (Or.inl h))
      · exact Or.inr (Or.inr (Or.inr h))

lemma hash_not_mem_pyQuote (v : List Char) : '#' ∉ pyQuote v := by
  intro h
  rcases mem_pyQuote h with h | h | h | h
  · exact absurd h (by decide)
  · exact absurd h (by decide)
  · exact absurd h (by decide)
  · revert h; decide

lemma hash_not_mem_query (cfg : Config) : '#' ∉ queryParams cfg := by
  intro h
  simp only [queryParams, List.mem_append] at h
  casesm* _ ∨ _
  all_goals first
    | exact absurd (by assumption) (by decide)
    | exact hash_not_mem_pyQuote _ (by assumption)

lemma digit_not_space {c : Char} (h : c.isDigit = true) : pyIsSpace c = false := by
  cases hpy : pyIsSpace c with
  | false => rfl
  | true =>
    exfalso
    simp only [pyIsSpace, Bool.or_eq_true, decide_eq_true_eq] at hpy
    rcases hpy with ((((rfl | rfl) | rfl) | rfl) | rfl) | rfl <;>
      simp [Char.isDigit] at h

lemma pyLStrip_no_space {l : List Char} (h : ∀ c ∈ l, pyIsSpace c = false) :
    pyLStrip l = l := by
  cases l with
  | nil => rfl
  | cons c rest => simp [pyLStrip, List.dropWhile_cons, h c (by simp)]

lemma pyRStrip_no_space {l : List Char} (h : ∀ c ∈ l, pyIsSpace c = false) :
    pyRStrip l = l := by
  unfold pyRStrip
  cases hr : l.reverse with
  | nil =>
    rw [List.reverse_eq_nil_iff] at hr
    subst hr
    rfl
  | cons c rest =>
    have hc : pyIsSpace c = false := h c (by rw [← List.mem_reverse, hr]; simp)
    rw [List.dropWhile_cons, hc]
    simp only [Bool.false_eq_true, if_false]
    rw [← hr, List.reverse_reverse]

lemma pyStrip_no_space {l : List Char} (h : ∀ c ∈ l, pyIsSpace c = false) :
    pyStrip l = l := by
  rw [pyStrip, pyLStrip_no_space h, pyRStrip_no_space h]

lemma pyInt_digits {l : List Char} (hne : l ≠ [])
    (hd : ∀ c ∈ l, c.isDigit = true) :
    pyInt l = some ((digitsToNat l : Int)) := by
  have hs : pyStrip l = l :=
    pyStrip_no_space (fun c hc => digit_not_space (hd c hc))
  cases l with
  | nil => exact absurd rfl hne
  | cons c cs =>
    have hc := hd c (by simp)
    have hplus : ¬c = '+' := by
      intro hq; rw [hq] at hc; exact absurd hc (by decide)
    have hminus : ¬c = '-' := by
      intro hq; rw [hq] at hc; exact absurd hc (by decide)
    unfold pyInt
    simp only [hs, if_neg hplus, if_neg hminus,
      List.all_eq_true.mpr (fun x hx => hd x hx), if_pos]

lemma isPrefixOf_append (a b : List Char) : a.isPrefixOf (a ++ b) = true := by
  induction a with
  | nil => simp [List.isPrefixOf]
  | cons c q ih => simp [List.isPrefixOf, ih]

/-- C6.  Round trip: a URI built by `_create_vless_link` from a valid IPv4
host, a port and a label, decomposed by the renderer's `_parse_vless_url`,
yields back the same host, the same port and the same identity token.  (The
identity token is the configured UUID; the split at the first `'@'` recovers
it because a UUID contains no `'@'`.) -/
theorem vless_roundtrip (cfg : Config) (ip : List Char) (port : Nat)
    (remark : List Char) (hip : is_valid_ip ip = true) (huuid : '@' ∉ cfg.UUID) :
    ∃ p : Proxy,
      parse_vless_url cfg (create_vless_link cfg ip port remark) = some p ∧
      p.server = ip ∧ p.port = (port : Int) ∧ p.uuid = cfg.UUID := by
  obtain ⟨hdne, hrest⟩ := natDigits_spec port
  obtain ⟨hdig, hdval⟩ := hrest
  have hipc := valid_ip_chars hip
  have hq1 : '?' ∉ ip ++ ':' :: natDigits port := by
    intro hm
    rcases List.mem_append.mp hm with hm | hm
    · rcases hipc _ hm with h1 | h1
      · exact absurd h1 (by decide)
      · exact absurd h1 (by decide)
    · rcases List.mem_cons.mp hm with h1 | h1
      · exact absurd h1 (by decide)
      · exact absurd (hdig _ h1) (by decide)
  have hcolon : ':' ∉ natDigits port := fun hm => absurd (hdig _ hm) (by decide)
  have hlink : create_vless_link cfg ip port remark
      = chars "vless://" ++ (cfg.UUID ++ '@' :: ((ip ++ ':' :: natDigits port)
          ++ '?' :: (queryParams cfg ++ '#' :: pyQuote remark))) := by
    simp [create_vless_link, List.append_assoc]
  have hpre : (chars "vless://").isPrefixOf (chars "vless://"
      ++ (cfg.UUID ++ '@' :: ((ip ++ ':' :: natDigits port)
          ++ '?' :: (queryParams cfg ++ '#' :: pyQuote remark)))) = true :=
    isPrefixOf_append _ _
  have hdrop : (chars "vless://" ++ (cfg.UUID ++ '@' :: ((ip ++ ':' :: natDigits port)
      ++ '?' :: (queryParams cfg ++ '#' :: pyQuote remark)))).drop 8
      = cfg.UUID ++ '@' :: ((ip ++ ':' :: natDigits port)
          ++ '?' :: (queryParams cfg ++ '#' :: pyQuote remark)) := by
    rw [show (8 : Nat) = (chars "vless://").length from rfl, List.drop_left]
  rw [hlink]
  simp only [parse_vless_url, hpre, Bool.not_true, Bool.false_eq_true, if_false,
    hdrop,
    splitOnce_first '@' cfg.UUID ((ip ++ ':' :: natDigits port)
      ++ '?' :: (queryParams cfg ++ '#' :: pyQuote remark)) huuid,
    splitOnce_first '?' (ip ++ ':' :: natDigits port)
      (queryParams cfg ++ '#' :: pyQuote remark) hq1,
    rsplitOnce_last ':' ip (natDigits port) hcolon,
    splitOnce_first '#' (queryParams cfg) (pyQuote remark) (hash_not_mem_query cfg),
    pyInt_digits hdne hdig, hdval]
  exact ⟨_, rfl, rfl, rfl, rfl⟩

/-- C6 witness: the round trip at the default configuration, host `1.2.3.4`,
port 443 and a concrete label. -/
theorem vless_roundtrip_witness :
    ∃ p : Proxy,
      parse_vless_url cfgTest
          (create_vless_link cfgTest (chars "1.2.3.4") 443 (chars "test-label"))
        = some p ∧
      p.server = chars "1.2.3.4" ∧ p.port = ((443 : Nat) : Int) ∧
      p.uuid = cfgTest.UUID :=
  vless_roundtrip cfgTest (chars "1.2.3.4") 443 (chars "test-label")
    (by decide) (by decide)

lemma isPrefixOf_mem {a b : List Char} (h : a.isPrefixOf b = true) :
    ∀ c ∈ a, c ∈ b := by
  induction a generalizing b with
  | nil => simp
  | cons x xs ih =>
    cases b with
    | nil => simp [List.isPrefixOf] at h
    | cons y ys =>
      simp only [List.isPrefixOf, Bool.and_eq_true, beq_iff_eq] at h
      intro c hc
      rcases List.mem_cons.mp hc with rfl | hc
      · simp [h.1]
      · exact List.mem_cons_of_mem _ (ih h.2 c hc)

lemma hasSubstr_subset {pat l : List Char} (h : hasSubstr pat l = true) :
    ∀ c ∈ pat, c ∈ l := by
  induction l with
  | nil =>
    simp only [hasSubstr, List.isEmpty_iff] at h
    subst h
    simp
  | cons x xs ih =>
    simp only [hasSubstr, Bool.or_eq_true] at h
    rcases h with h | h
    · exact isPrefixOf_mem h
    · exact fun c hc => List.mem_cons_of_mem _ (ih h c hc)

lemma mem_pyLStrip {l : List Char} {c : Char} (h : c ∈ pyLStrip l) : c ∈ l :=
  List.dropWhile_sublist _ |>.mem h

lemma mem_pyRStrip {l : List Char} {c : Char} (h : c ∈ pyRStrip l) : c ∈ l := by
  rw [pyRStrip, List.mem_reverse] at h
  rw [← List.mem_reverse]
  exact List.dropWhile_sublist _ |>.mem h

lemma mem_pyStrip {l : List Char} {c : Char} (h : c ∈ pyStrip l) : c ∈ l :=
  mem_pyLStrip (mem_pyRStrip h)

lemma splitOnce_mem {sep : Char} {l a b : List Char}
    (h : splitOnce sep l = some (a, b)) :
    (∀ c ∈ a, c ∈ l) ∧ (∀ c ∈ b, c ∈ l) := by
  induction l generalizing a with
  | nil => simp [splitOnce] at h
  | cons x xs ih =>
    simp only [splitOnce] at h
    by_cases hx : x = sep
    · rw [if_pos hx] at h
      obtain ⟨rfl, rfl⟩ := by simpa using h
      exact ⟨by simp, fun c hc => List.mem_cons_of_mem _ hc⟩
    · rw [if_neg hx] at h
      rcases hs : splitOnce sep xs with - | ⟨a', b'⟩
      · rw [hs] at h; exact absurd h (by simp)
      · rw [hs] at h
        simp only [Option.map_some', Option.some.injEq, Prod.mk.injEq] at h
        obtain ⟨ha, hb⟩ := h
        subst ha
        subst hb
        obtain ⟨h1, h2⟩ := ih hs
        constructor
        · intro c hc
          rcases List.mem_cons.mp hc with rfl | hc
          · simp
          · exact List.mem_cons_of_mem _ (h1 c hc)
        · exact fun c hc => List.mem_cons_of_mem _ (h2 c hc)

lemma splitOnce_none {sep : Char} {l : List Char} :
    splitOnce sep l = none ↔ sep ∉ l := by
  induction l with
  | nil => simp [splitOnce]
  | cons x xs ih =>
    simp only [splitOnce, List.mem_cons]
    by_cases hx : x = sep
    · simp [hx]
    · rw [if_neg hx]
      simp only [Option.map_eq_none', ih]
      constructor
      · intro h hm
        rcases hm with hm | hm
        · exact hx hm.symm
        · exact h hm
      · intro h hm
        exact h (Or.inr hm)

lemma rsplitOnce_none {sep : Char} {l : List Char} :
    rsplitOnce sep l = none ↔ sep ∉ l := by
  unfold rsplitOnce
  rcases hs : splitOnce sep l.reverse with - | ⟨a, b⟩
  · simpa [List.mem_reverse] using (splitOnce_none.mp hs)
  · simp only []
    constructor
    · intro h; simp at h
    · intro h
      exfalso
      have := @splitOnce_none sep l.reverse
      rw [hs] at this
      have hnm : sep ∉ l.reverse := by simpa [List.mem_reverse] using h
      simp [hnm] at this

lemma pyRStrip_cons_nonspace {c : Char} {xs : List Char}
    (h : pyIsSpace c = false) : pyRStrip (c :: xs) = c :: pyRStrip xs := by
  unfold pyRStrip
  rw [show (c :: xs).reverse = xs.reverse ++ [c] from by simp,
    List.dropWhile_append]
  by_cases he : (xs.reverse.dropWhile pyIsSpace).isEmpty
  · rw [if_pos he]
    rw [List.isEmpty_iff] at he
    simp [List.dropWhile_cons, h, he]
  · rw [if_neg he]
    simp

lemma pyRStrip_concat_nonspace {l : List Char} {c : Char}
    (h : pyIsSpace c = false) : pyRStrip (l ++ [c]) = l ++ [c] := by
  unfold pyRStrip
  rw [show (l ++ [c]).reverse = c :: l.reverse from by simp,
    List.dropWhile_cons, h]
  simp

lemma strip_empty_all_space {l : List Char} (h : (pyStrip l).isEmpty = true) :
    ∀ c ∈ l, pyIsSpace c = true := by
  rw [List.isEmpty_iff] at h
  unfold pyStrip pyRStrip at h
  have h2 : ((pyLStrip l).reverse.dropWhile pyIsSpace) = [] := by
    have := congrArg List.reverse h
    simpa using this
  have h3 : ∀ c ∈ (pyLStrip l).reverse, pyIsSpace c = true :=
    List.dropWhile_eq_nil_iff.mp h2
  intro c hc
  rw [← List.takeWhile_append_dropWhile (p := pyIsSpace) (l := l)] at hc
  rcases List.mem_append.mp hc with hc | hc
  · exact List.mem_takeWhile_imp hc
  · exact h3 c (List.mem_reverse.mpr hc)

lemma valStep_blank (st : Bool × Nat) (l : List Char)
    (h : (pyStrip (pyRStrip l)).isEmpty = true) :
    valStep st l = ((false, st.2), []) := by
  unfold valStep
  simp [h]

lemma valStep_out (st : Bool × Nat) (l : List Char) :
    (valStep st l).2 = [] ∨ (valStep st l).2 = pyRStrip l ∨
      (valStep st l).2 = rebuildLine (pyRStrip l) := by
  unfold valStep
  dsimp only
  split_ifs <;> simp

lemma valStep_false (k : Nat) (l : List Char)
    (hb : (pyStrip (pyRStrip l)).isEmpty = false)
    (ha : hasSubstr (chars "alpn:") (pyRStrip l) = false) :
    valStep (false, k) l = ((false, k), rebuildLine (pyRStrip l)) := by
  unfold valStep
  simp [hb, ha]

lemma valStep_out_noColon (st : Bool × Nat) (l : List Char)
    (hb : (pyStrip (pyRStrip l)).isEmpty = false)
    (hc : ':' ∉ pyRStrip l) : (valStep st l).2 = pyRStrip l := by
  have ha : hasSubstr (chars "alpn:") (pyRStrip l) = false := by
    cases hh : hasSubstr (chars "alpn:") (pyRStrip l)
    · rfl
    · exact absurd (hasSubstr_subset hh ':' (by decide)) hc
  have hr : rebuildLine (pyRStrip l) = pyRStrip l := by
    unfold rebuildLine
    rw [splitOnce_none.mpr hc]
  unfold valStep
  simp only [hb, ha, Bool.false_and, Bool.false_eq_true, if_false]
  split_ifs <;> simp [hr]

lemma valAccum_append (st : Bool × Nat) (xs ys : List (List Char)) :
    valAccum st (xs ++ ys) = valAccum st xs ++ valAccum (valFinal st xs) ys := by
  induction xs generalizing st with
  | nil => rfl
  | cons l ls ih => simp [valAccum, valFinal, ih]

lemma valFinal_append (st : Bool × Nat) (xs ys : List (List Char)) :
    valFinal st (xs ++ ys) = valFinal (valFinal st xs) ys := by
  induction xs generalizing st with
  | nil => rfl
  | cons l ls ih => simp [valFinal, ih]

lemma valFinal_blank_end (st : Bool × Nat) (xs : List (List Char)) :
    (valFinal st (xs ++ [[]])).1 = false := by
  rw [valFinal_append]
  simp [valFinal, valStep_blank _ [] (by decide)]

lemma nameTok_nameLine (N : List Char) : nameTok (nameLine N) = some N := by
  have h1 : (chars "  - name: \"").isPrefixOf (nameLine N) = true :=
    isPrefixOf_append _ _
  have h2 : (nameLine N).getLast? = some '"' := by
    rw [show nameLine N = (chars "  - name: \"" ++ N) ++ ['"'] from by
      simp [nameLine]]
    exact List.getLast?_concat _
  have h3 : 12 ≤ (nameLine N).length := by
    simp [nameLine, chars]
  have h4 : (nameLine N).drop 11 = N ++ ['"'] := by
    unfold nameLine
    rw [List.append_assoc,
      show (11 : Nat) = (chars "  - name: \"").length from rfl, List.drop_left]
  unfold nameTok
  rw [if_pos (by simp [h1, h2, h3]), h4, List.dropLast_concat]

lemma memberTok_memberLine (N : List Char) : memberTok (memberLine N) = some N := by
  have h1 : (chars "      - \"").isPrefixOf (memberLine N) = true :=
    isPrefixOf_append _ _
  have h2 : (memberLine N).getLast? = some '"' := by
    rw [show memberLine N = (chars "      - \"" ++ N) ++ ['"'] from by
      simp [memberLine]]
    exact List.getLast?_concat _
  have h3 : 10 ≤ (memberLine N).length := by
    simp [memberLine, chars]
  have h4 : (memberLine N).drop 9 = N ++ ['"'] := by
    unfold memberLine
    rw [List.append_assoc,
      show (9 : Nat) = (chars "      - \"").length from rfl, List.drop_left]
  unfold memberTok
  rw [if_pos (by simp [h1, h2, h3]), h4, List.dropLast_concat]

lemma pyRStrip_isPrefix (l : List Char) : (pyRStrip l).IsPrefix l := by
  have h : l.reverse.dropWhile pyIsSpace <:+ l.reverse :=
    List.dropWhile_suffix pyIsSpace
  have h2 := List.IsSuffix.reverse h
  simpa [pyRStrip] using h2

lemma nonblank_has_nonspace {l : List Char}
    (hb : (pyStrip l).isEmpty = false) : ∃ c ∈ l, pyIsSpace c = false := by
  by_contra h
  push_neg at h
  have hall : ∀ c ∈ l, pyIsSpace c = true := by
    intro c hc
    cases hcs : pyIsSpace c
    · exact absurd hcs (h c hc)
    · rfl
  have h1 : pyLStrip l = [] := by
    unfold pyLStrip
    exact List.dropWhile_eq_nil_iff.mpr hall
  rw [pyStrip, h1] at hb
  simp [pyRStrip] at hb

lemma nameTok_nil : nameTok ([] : List Char) = none := by decide

lemma nameTok_none_of_head {c : Char} {rest : List Char} (h : c ≠ ' ') :
    nameTok (c :: rest) = none := by
  unfold nameTok
  rw [if_neg]
  intro hc
  simp only [Bool.and_eq_true] at hc
  have hp := hc.1.1
  rw [show chars "  - name: \"" = ' ' :: chars " - name: \"" from rfl] at hp
  simp only [List.isPrefixOf, Bool.and_eq_true, beq_iff_eq] at hp
  exact h hp.1.symm

lemma nameTok_none_of_three (r : List Char) :
    nameTok (' ' :: ' ' :: ' ' :: r) = none := by
  unfold nameTok
  rw [if_neg]
  intro hc
  simp only [Bool.and_eq_true] at hc
  have hp := hc.1.1
  rw [show chars "  - name: \"" = ' ' :: ' ' :: '-' :: chars " name: \"" from
    rfl] at hp
  simp only [List.isPrefixOf, Bool.and_eq_true, beq_iff_eq] at hp
  exact absurd hp.2.2.1 (by decide)

lemma nameTok_none_of_blank {l : List Char}
    (h : (pyStrip l).isEmpty = true) : nameTok l = none := by
  unfold nameTok
  rw [if_neg]
  intro hc
  simp only [Bool.and_eq_true] at hc
  have hm : '-' ∈ l := isPrefixOf_mem hc.1.1 '-' (by decide)
  exact absurd (strip_empty_all_space h '-' hm) (by decide)

lemma prefix_three {l r : List Char} (hp : l <+: (' ' :: ' ' :: ' ' :: r))
    (hl : ∃ c ∈ l, pyIsSpace c = false) :
    ∃ r2, l = ' ' :: ' ' :: ' ' :: r2 := by
  obtain ⟨t, ht⟩ := hp
  obtain ⟨c, hcmem, hcns⟩ := hl
  rcases l with _ | ⟨a, _ | ⟨b, _ | ⟨d, r2⟩⟩⟩
  · simp at hcmem
  · injection ht with h1 _
    subst h1
    simp at hcmem
    subst hcmem
    exact absurd hcns (by decide)
  · injection ht with h1 ht2
    injection ht2 with h2 _
    subst h1; subst h2
    simp at hcmem
    subst hcmem
    exact absurd hcns (by decide)
  · injection ht with h1 ht2
    injection ht2 with h2 ht3
    injection ht3 with h3 _
    subst h1; subst h2; subst h3
    exact ⟨r2, rfl⟩

lemma indentOf_three (r : List Char) : 3 ≤ indentOf (' ' :: ' ' :: ' ' :: r) := by
  simp only [indentOf, List.takeWhile_cons, show pyIsSpace ' ' = true from by
    decide, if_true, List.length_cons]
  omega

lemma replicate_three {n : Nat} (h : 3 ≤ n) (X : List Char) :
    ∃ r2, List.replicate n ' ' ++ X = ' ' :: ' ' :: ' ' :: r2 := by
  obtain ⟨m, hm⟩ : ∃ m, n = 3 + m := ⟨n - 3, by omega⟩
  subst hm
  refine ⟨List.replicate m ' ' ++ X, ?_⟩
  rw [List.replicate_add, List.append_assoc]
  rfl

lemma rebuildLine_indent (l : List Char) :
    rebuildLine l = l ∨
      ∃ X, rebuildLine l = List.replicate (indentOf l) ' ' ++ X := by
  unfold rebuildLine
  cases hs : splitOnce ':' l with
  | none => exact Or.inl rfl
  | some p =>
    right
    cases p with
    | mk k0 v0 =>
      dsimp only
      split_ifs
      · exact ⟨pyStrip k0 ++ [':'], by rw [List.append_assoc]⟩
      · exact ⟨pyStrip k0 ++ chars ": \"" ++ escQuotes (pyStrip v0) ++ ['"'],
          by simp [List.append_assoc]⟩
      · exact ⟨pyStrip k0 ++ chars ": " ++ pyStrip v0,
          by simp [List.append_assoc]⟩

lemma rebuildLine_of_blank {l : List Char}
    (h : (pyStrip l).isEmpty = true) : rebuildLine l = l := by
  have h' : splitOnce ':' l = none := splitOnce_none.mpr
    (fun hc => absurd (strip_empty_all_space h ':' hc) (by decide))
  unfold rebuildLine
  rw [h']

lemma pyLStrip_cons_nonspace {c : Char} {xs : List Char}
    (h : pyIsSpace c = false) : pyLStrip (c :: xs) = c :: xs := by
  simp [pyLStrip, List.dropWhile_cons, h]

lemma pyStrip_cons_nonspace {c : Char} {xs : List Char}
    (h : pyIsSpace c = false) :
    pyStrip (c :: xs) = c :: pyRStrip xs := by
  rw [pyStrip, pyLStrip_cons_nonspace h, pyRStrip_cons_nonspace h]

lemma rebuildLine_head {c : Char} (rest : List Char)
    (hc : pyIsSpace c = false) :
    ∃ d t, rebuildLine (c :: rest) = d :: t ∧ (d = c ∨ d = ':') := by
  have hind : indentOf (c :: rest) = 0 := by
    simp [indentOf, List.takeWhile_cons, hc]
  unfold rebuildLine
  cases hs : splitOnce ':' (c :: rest) with
  | none => exact ⟨c, rest, rfl, Or.inl rfl⟩
  | some p =>
    cases p with
    | mk k0 v0 =>
      dsimp only
      rw [hind]
      by_cases hcc : c = ':'
      · subst hcc
        rw [show splitOnce ':' (':' :: rest) = some ([], rest) from by
          simp [splitOnce]] at hs
        injection hs with hs'
        injection hs' with h1 h2
        subst h1; subst h2
        split_ifs
        · exact ⟨':', [], rfl, Or.inr rfl⟩
        · exact ⟨':', _, rfl, Or.inr rfl⟩
        · exact ⟨':', _, rfl, Or.inr rfl⟩
      · have hk : k0 = c :: (splitOnce ':' rest).elim [] Prod.fst := by
          rw [show splitOnce ':' (c :: rest)
              = (splitOnce ':' rest).map (fun q => (c :: q.1, q.2)) from by
            simp [splitOnce, hcc]] at hs
          cases hr : splitOnce ':' rest with
          | none => rw [hr] at hs; exact absurd hs (by simp)
          | some q =>
            rw [hr] at hs
            simp only [Option.map_some'] at hs
            injection hs with hs'
            rw [Prod.mk.injEq] at hs'
            rw [← hs'.1]
            simp [hr]
        have hkey : pyStrip k0 = c :: pyRStrip ((splitOnce ':' rest).elim [] Prod.fst) := by
          rw [hk, pyStrip_cons_nonspace hc]
        split_ifs
        · exact ⟨c, _, by rw [hkey]; rfl, Or.inl rfl⟩
        · exact ⟨c, _, by rw [hkey]; rfl, Or.inl rfl⟩
        · exact ⟨c, _, by rw [hkey]; rfl, Or.inl rfl⟩

lemma bit_head_nonspace (st : Bool × Nat) (c : Char) (rest : List Char)
    (hc : pyIsSpace c = false) :
    nameTok ((valStep st (c :: rest)).2) = none ∧
      nameTok (c :: rest) = none := by
  have hcs : c ≠ ' ' := fun h => by rw [h] at hc; exact absurd hc (by decide)
  refine ⟨?_, nameTok_none_of_head hcs⟩
  rcases valStep_out st (c :: rest) with ho | ho | ho <;> rw [ho]
  · exact nameTok_nil
  · rw [pyRStrip_cons_nonspace hc]
    exact nameTok_none_of_head hcs
  · rw [pyRStrip_cons_nonspace hc]
    obtain ⟨d, t, heq, hd⟩ := rebuildLine_head (pyRStrip rest) hc
    rw [heq]
    apply nameTok_none_of_head
    rcases hd with h | h
    · rw [h]; exact hcs
    · rw [h]; decide

lemma bit_three_space (st : Bool × Nat) (r : List Char) :
    nameTok ((valStep st (' ' :: ' ' :: ' ' :: r)).2) = none ∧
      nameTok (' ' :: ' ' :: ' ' :: r) = none := by
  refine ⟨?_, nameTok_none_of_three r⟩
  have hpre := pyRStrip_isPrefix (' ' :: ' ' :: ' ' :: r)
  by_cases hb : (pyStrip (pyRStrip (' ' :: ' ' :: ' ' :: r))).isEmpty = true
  · rcases valStep_out st (' ' :: ' ' :: ' ' :: r) with ho | ho | ho <;> rw [ho]
    · exact nameTok_nil
    · exact nameTok_none_of_blank hb
    · rw [rebuildLine_of_blank hb]
      exact nameTok_none_of_blank hb
  · have hb' : (pyStrip (pyRStrip (' ' :: ' ' :: ' ' :: r))).isEmpty = false := by
      cases hh : (pyStrip (pyRStrip (' ' :: ' ' :: ' ' :: r))).isEmpty
      · rfl
      · exact absurd hh hb
    obtain ⟨r2, hr2⟩ := prefix_three hpre (nonblank_has_nonspace hb')
    rcases valStep_out st (' ' :: ' ' :: ' ' :: r) with ho | ho | ho <;> rw [ho]
    · exact nameTok_nil
    · rw [hr2]; exact nameTok_none_of_three r2
    · rw [hr2]
      rcases rebuildLine_indent (' ' :: ' ' :: ' ' :: r2) with he | ⟨X, he⟩ <;>
        rw [he]
      · exact nameTok_none_of_three r2
      · obtain ⟨r3, hr3⟩ := replicate_three (indentOf_three r2) X
        rw [hr3]
        exact nameTok_none_of_three r3

lemma bit_blank (st : Bool × Nat) (l : List Char)
    (h : (pyStrip l).isEmpty = true) :
    nameTok ((valStep st l).2) = none ∧ nameTok l = none := by
  refine ⟨?_, nameTok_none_of_blank h⟩
  have h2 : (pyStrip (pyRStrip l)).isEmpty = true := by
    cases hh : (pyStrip (pyRStrip l)).isEmpty
    · obtain ⟨c, hcm, hcn⟩ := nonblank_has_nonspace hh
      have := strip_empty_all_space h c (mem_pyRStrip hcm)
      rw [this] at hcn
      exact Bool.noConfusion hcn
    · rfl
  rw [valStep_blank st l h2]
  exact nameTok_nil

lemma rebuildLine_nameLine (N : List Char) :
    rebuildLine (nameLine N) =
      if N.any valueNeedsQuote then nameLine (escQuotes ('"' :: (N ++ ['"'])))
      else nameLine N := by
  have hsplit : splitOnce ':' (nameLine N)
      = some (chars "  - name", ' ' :: '"' :: (N ++ ['"'])) := by
    rw [show nameLine N
        = chars "  - name" ++ ':' :: (' ' :: '"' :: (N ++ ['"'])) from by
      simp [nameLine, chars]]
    exact splitOnce_first ':' _ _ (by decide)
  have hkey : pyStrip (chars "  - name") = chars "- name" := by decide
  have hv1 : pyLStrip (' ' :: '"' :: (N ++ ['"'])) = '"' :: (N ++ ['"']) := by
    simp [pyLStrip, List.dropWhile_cons, show pyIsSpace ' ' = true from by
      decide, show pyIsSpace '"' = false from by decide]
  have hv2 : pyRStrip ('"' :: (N ++ ['"'])) = '"' :: (N ++ ['"']) := by
    rw [show ('"' :: (N ++ ['"'])) = ('"' :: N) ++ ['"'] from by simp]
    exact pyRStrip_concat_nonspace (by decide)
  have hval : pyStrip (' ' :: '"' :: (N ++ ['"'])) = '"' :: (N ++ ['"']) := by
    rw [pyStrip, hv1, hv2]
  have hind : indentOf (nameLine N) = 2 := by
    rw [show nameLine N
        = ' ' :: ' ' :: '-' :: (chars " name: \"" ++ (N ++ ['"'])) from by
      simp [nameLine, chars]]
    simp [indentOf, List.takeWhile_cons, show pyIsSpace ' ' = true from by
      decide, show pyIsSpace '-' = false from by decide]
  have hany : ('"' :: (N ++ ['"'])).any valueNeedsQuote
      = N.any valueNeedsQuote := by
    simp [show valueNeedsQuote '"' = false from by decide]
  unfold rebuildLine
  rw [hsplit]
  dsimp only
  rw [hval, hkey, hind, hany]
  rw [if_neg (by simp)]
  by_cases hq : N.any valueNeedsQuote
  · rw [if_pos hq, if_pos hq]
    rfl
  · rw [if_neg hq, if_neg hq]
    rfl

lemma valStep_nameLine (st : Bool × Nat) (N : List Char) :
    (valStep st (nameLine N)).2 = nameLine N ∨
      (valStep st (nameLine N)).2
        = nameLine (escQuotes ('"' :: (N ++ ['"']))) := by
  have hr : pyRStrip (nameLine N) = nameLine N := by
    rw [show nameLine N = (chars "  - name: \"" ++ N) ++ ['"'] from by
      simp [nameLine]]
    exact pyRStrip_concat_nonspace (by decide)
  have hb : (pyStrip (nameLine N)).isEmpty = false := by
    cases hh : (pyStrip (nameLine N)).isEmpty
    · rfl
    · have hm : '-' ∈ nameLine N :=
        List.mem_append.mpr (Or.inl (List.mem_append.mpr (Or.inl (by decide))))
      exact absurd (strip_empty_all_space hh '-' hm) (by decide)
  unfold valStep
  dsimp only
  rw [hr, hb]
  simp only [Bool.false_eq_true, if_false]
  split_ifs
  all_goals try exact Or.inl rfl
  all_goals rw [rebuildLine_nameLine]
  all_goals split_ifs
  all_goals first
    | exact Or.inr rfl
    | exact Or.inl rfl

lemma bit_nameLine (st : Bool × Nat) (N : List Char) :
    (nameTok ((valStep st (nameLine N)).2)).isSome = true ∧
      (nameTok (nameLine N)).isSome = true := by
  refine ⟨?_, by rw [nameTok_nameLine]; rfl⟩
  rcases valStep_nameLine st N with ho | ho <;> rw [ho, nameTok_nameLine] <;> rfl

lemma bit_concrete (l : List Char) (h1 : nameTok l = none)
    (h2 : nameTok (pyRStrip l) = none)
    (h3 : nameTok (rebuildLine (pyRStrip l)) = none) (st : Bool × Nat) :
    nameTok ((valStep st l).2) = none ∧ nameTok l = none := by
  refine ⟨?_, h1⟩
  rcases valStep_out st l with ho | ho | ho <;> rw [ho]
  · exact nameTok_nil
  · exact h2
  · exact h3

lemma valAccum_bit_count (lines : List (List Char))
    (h : ∀ l ∈ lines, ∀ st : Bool × Nat,
      (nameTok ((valStep st l).2)).isSome = (nameTok l).isSome) :
    ∀ st : Bool × Nat,
      ((valAccum st lines).filterMap nameTok).length
        = (lines.filterMap nameTok).length := by
  induction lines with
  | nil => intro st; rfl
  | cons l ls ih =>
    intro st
    have ih' := ih (fun x hx => h x (List.mem_cons_of_mem _ hx))
    have hbit := h l (List.mem_cons_self _ _) st
    have hacc : valAccum st (l :: ls)
        = (valStep st l).2 :: valAccum (valStep st l).1 ls := rfl
    rw [hacc, List.filterMap_cons, List.filterMap_cons]
    cases ho : nameTok ((valStep st l).2) <;> cases hi : nameTok l <;>
      rw [ho, hi] at hbit
    · exact ih' _
    · exact absurd hbit (by simp)
    · exact absurd hbit (by simp)
    · simp only [List.length_cons]
      rw [ih' _]

lemma joinLines_concat (L : List (List Char)) (lst : List Char) (h : L ≠ []) :
    joinLines (L ++ [lst]) = joinLines L ++ '\n' :: lst := by
  induction L with
  | nil => exact absurd rfl h
  | cons l ls ih =>
    cases ls with
    | nil => rfl
    | cons l2 ls2 =>
      show l ++ '\n' :: joinLines ((l2 :: ls2) ++ [lst]) = _
      rw [ih (by simp)]
      show l ++ '\n' :: (joinLines (l2 :: ls2) ++ '\n' :: lst)
          = (l ++ '\n' :: joinLines (l2 :: ls2)) ++ '\n' :: lst
      simp [List.append_assoc]

lemma pySplit_joinLines (L : List (List Char)) (hne : L ≠ [])
    (hfree : ∀ l ∈ L, '\n' ∉ l) : pySplit '\n' (joinLines L) = L := by
  induction L with
  | nil => exact absurd rfl hne
  | cons l ls ih =>
    cases ls with
    | nil => exact pySplit_not_mem '\n' l (hfree l (by simp))
    | cons l2 ls2 =>
      show pySplit '\n' (l ++ '\n' :: joinLines (l2 :: ls2)) = _
      rw [pySplit_append '\n' l _ (hfree l (by simp))]
      rw [ih (by simp) (fun x hx => hfree x (List.mem_cons_of_mem _ hx))]

lemma pyRStrip_append_newline (Z : List Char) :
    pyRStrip (Z ++ ['\n']) = pyRStrip Z := by
  unfold pyRStrip
  rw [show (Z ++ ['\n']).reverse = '\n' :: Z.reverse from by simp,
    List.dropWhile_cons]
  simp [show pyIsSpace '\n' = true from by decide]

/-- A line whose `nameTok`-visibility is preserved by one validator step,
whatever the alpn state. -/
def bitOK (l : List Char) : Prop :=
  ∀ st : Bool × Nat, (nameTok ((valStep st l).2)).isSome = (nameTok l).isSome

lemma bitOK_head {c : Char} {rest : List Char} (hc : pyIsSpace c = false) :
    bitOK (c :: rest) := by
  intro st
  obtain ⟨h1, h2⟩ := bit_head_nonspace st c rest hc
  rw [h1, h2]

lemma bitOK_three {r : List Char} : bitOK (' ' :: ' ' :: ' ' :: r) := by
  intro st
  obtain ⟨h1, h2⟩ := bit_three_space st r
  rw [h1, h2]

lemma bitOK_blank {l : List Char} (h : (pyStrip l).isEmpty = true) :
    bitOK l := by
  intro st
  obtain ⟨h1, h2⟩ := bit_blank st l h
  rw [h1, h2]

lemma bitOK_nameLine {N : List Char} : bitOK (nameLine N) := by
  intro st
  obtain ⟨h1, h2⟩ := bit_nameLine st N
  rw [h1, h2]

lemma bitOK_concrete (l : List Char) (h1 : nameTok l = none)
    (h2 : nameTok (pyRStrip l) = none)
    (h3 : nameTok (rebuildLine (pyRStrip l)) = none) : bitOK l := by
  intro st
  obtain ⟨ha, hb⟩ := bit_concrete l h1 h2 h3 st
  rw [ha, hb]

lemma alpn_item_shape {alpn : List (List Char)} {l : List Char}
    (h : l ∈ alpn.filterMap (fun it =>
      let s := pyStrip it
      if s.isEmpty then none else some (chars "      - \"" ++ s ++ ['"']))) :
    ∃ r, l = ' ' :: ' ' :: ' ' :: r := by
  rw [List.mem_filterMap] at h
  obtain ⟨a, _, heq⟩ := h
  dsimp only at heq
  split_ifs at heq
  injection heq with heq2
  rw [← heq2]
  exact ⟨_, rfl⟩

lemma proxyLines_shape (p : Proxy) : ∀ l ∈ proxyLines p,
    l = nameLine p.name ∨ l = [] ∨ ∃ r, l = ' ' :: ' ' :: ' ' :: r := by
  intro l hl
  unfold proxyLines at hl
  split_ifs at hl
  all_goals
    simp only [List.mem_append, List.mem_cons, List.not_mem_nil, or_false,
      List.nil_append, List.append_nil] at hl
  all_goals casesm* _ ∨ _
  all_goals try subst_vars
  all_goals try exact Or.inl rfl
  all_goals try exact Or.inr (Or.inl rfl)
  all_goals try exact Or.inr (Or.inr ⟨_, rfl⟩)
  all_goals exact Or.inr (Or.inr (alpn_item_shape (by assumption)))

lemma bitOK_proxyLines (p : Proxy) : ∀ l ∈ proxyLines p, bitOK l := by
  intro l hl
  rcases proxyLines_shape p l hl with h | h | ⟨r, h⟩ <;> subst h
  · exact bitOK_nameLine
  · exact bitOK_blank (by decide)
  · exact bitOK_three

lemma bitOK_headerLines (ts : List Char) (n : Nat) :
    ∀ l ∈ headerLines ts n, bitOK l := by
  intro l hl
  simp only [headerLines, List.mem_cons, List.not_mem_nil, or_false] at hl
  casesm* _ ∨ _
  all_goals subst_vars
  all_goals first
    | exact bitOK_blank (by decide)
    | exact bitOK_head (by decide)


lemma bitOK_memberLine (N : List Char) : bitOK (memberLine N) := by
  have h : memberLine N
      = ' ' :: ' ' :: ' ' :: (chars "   - \"" ++ (N ++ ['"'])) := by
    simp [memberLine, chars]
  rw [h]
  exact bitOK_three

set_option maxHeartbeats 1600000 in
lemma bitOK_groupLines (names : List (List Char)) :
    ∀ l ∈ groupLines names, bitOK l := by
  intro l hl
  simp only [groupLines, List.mem_append, List.mem_cons, List.not_mem_nil,
    or_false, List.mem_map] at hl
  casesm* _ ∨ _, Exists _, _ ∧ _
  all_goals subst_vars
  all_goals try exact bitOK_concrete _ (by decide) (by decide) (by decide)
  all_goals exact bitOK_memberLine _

lemma bitOK_buildLines (safe : List Proxy) (ts : List Char) :
    ∀ l ∈ buildLines safe ts, bitOK l := by
  intro l hl
  unfold buildLines at hl
  simp only [List.mem_append] at hl
  rcases hl with ((h | h) | h) | h
  · exact bitOK_headerLines ts _ l h
  · rw [List.mem_flatten] at h
    obtain ⟨ls, hls, hmem⟩ := h
    rw [List.mem_map] at hls
    obtain ⟨p, hp, hpe⟩ := hls
    rw [← hpe] at hmem
    exact bitOK_proxyLines p l hmem
  · rw [List.mem_singleton] at h
    subst h
    exact bitOK_blank (by decide)
  · exact bitOK_groupLines _ l h

lemma no_newline_natDigits (n : Nat) : '\n' ∉ natDigits n := by
  intro h
  exact absurd ((natDigits_spec n).2.1 '\n' h) (by decide)

lemma no_newline_intRepr (i : Int) : '\n' ∉ intRepr i := by
  unfold intRepr
  split_ifs
  · intro h
    rcases List.mem_cons.mp h with h | h
    · exact absurd h (by decide)
    · exact no_newline_natDigits _ h
  · exact no_newline_natDigits _

lemma no_newline_zpad (w n : Nat) : '\n' ∉ zpad w n := by
  unfold zpad
  intro h
  dsimp only at h
  rcases List.mem_append.mp h with h | h
  · exact absurd (List.eq_of_mem_replicate h) (by decide)
  · exact no_newline_natDigits _ h

lemma no_newline_fmtTimestamp (now : PyDateTime) : '\n' ∉ fmtTimestamp now := by
  unfold fmtTimestamp
  intro h
  simp only [List.mem_append, List.mem_cons] at h
  casesm* _ ∨ _
  all_goals first
    | exact absurd (by assumption) (by decide)
    | exact no_newline_zpad _ _ (by assumption)

lemma mem_escQuotes {v : List Char} {c : Char} (h : c ∈ escQuotes v) :
    c ∈ v ∨ c = '\\' ∨ c = '"' := by
  unfold escQuotes at h
  rw [List.mem_flatten] at h
  obtain ⟨piece, hp, hc⟩ := h
  rw [List.mem_map] at hp
  obtain ⟨d, hd, hde⟩ := hp
  rw [← hde] at hc
  split_ifs at hc
  · rcases List.mem_cons.mp hc with h1 | h1
    · exact Or.inr (Or.inl h1)
    · rw [List.mem_singleton] at h1
      exact Or.inr (Or.inr h1)
  · rw [List.mem_singleton] at hc
    subst hc
    exact Or.inl hd

lemma mem_rebuildLine {x : List Char} {c : Char} (h : c ∈ rebuildLine x) :
    c ∈ x ∨ c = ' ' ∨ c = ':' ∨ c = '"' ∨ c = '\\' := by
  unfold rebuildLine at h
  cases hs : splitOnce ':' x with
  | none => rw [hs] at h; exact Or.inl h
  | some p =>
    rw [hs] at h
    obtain ⟨k0, v0⟩ := p
    obtain ⟨hk, hv⟩ := splitOnce_mem hs
    dsimp only at h
    split_ifs at h
    · simp only [List.mem_append] at h
      rcases h with (h | h) | h
      · exact Or.inr (Or.inl (List.eq_of_mem_replicate h))
      · exact Or.inl (hk c (mem_pyStrip h))
      · have h1 : c = ':' := by
          have h2 : c ∈ [':'] := h
          simpa using h2
        exact Or.inr (Or.inr (Or.inl h1))
    · simp only [List.mem_append] at h
      rcases h with (((h | h) | h) | h) | h
      · exact Or.inr (Or.inl (List.eq_of_mem_replicate h))
      · exact Or.inl (hk c (mem_pyStrip h))
      · have h1 : c = ':' ∨ c = ' ' ∨ c = '"' := by
          have h2 : c ∈ [':', ' ', '"'] := h
          simpa using h2
        rcases h1 with h1 | h1 | h1
        · exact Or.inr (Or.inr (Or.inl h1))
        · exact Or.inr (Or.inl h1)
        · exact Or.inr (Or.inr (Or.inr (Or.inl h1)))
      · rcases mem_escQuotes h with h1 | h1 | h1
        · exact Or.inl (hv c (mem_pyStrip h1))
        · exact Or.inr (Or.inr (Or.inr (Or.inr h1)))
        · exact Or.inr (Or.inr (Or.inr (Or.inl h1)))
      · have h1 : c = '"' := by
          have h2 : c ∈ ['"'] := h
          simpa using h2
        exact Or.inr (Or.inr (Or.inr (Or.inl h1)))
    · simp only [List.mem_append] at h
      rcases h with ((h | h) | h) | h
      · exact Or.inr (Or.inl (List.eq_of_mem_replicate h))
      · exact Or.inl (hk c (mem_pyStrip h))
      · have h1 : c = ':' ∨ c = ' ' := by
          have h2 : c ∈ [':', ' '] := h
          simpa using h2
        rcases h1 with h1 | h1
        · exact Or.inr (Or.inr (Or.inl h1))
        · exact Or.inr (Or.inl h1)
      · exact Or.inl (hv c (mem_pyStrip h))

lemma valStep_no_newline {l : List Char} (h : '\n' ∉ l) (st : Bool × Nat) :
    '\n' ∉ (valStep st l).2 := by
  have hr : '\n' ∉ pyRStrip l := fun hm => h (mem_pyRStrip hm)
  rcases valStep_out st l with ho | ho | ho <;> rw [ho]
  · simp
  · exact hr
  · intro hm
    rcases mem_rebuildLine hm with h1 | h1 | h1 | h1 | h1
    · exact hr h1
    all_goals exact absurd h1 (by decide)

lemma valAccum_no_newline (lines : List (List Char))
    (h : ∀ l ∈ lines, '\n' ∉ l) :
    ∀ st : Bool × Nat, ∀ o ∈ valAccum st lines, '\n' ∉ o := by
  induction lines with
  | nil =>
    intro st o ho
    simp [valAccum] at ho
  | cons l ls ih =>
    intro st o ho
    have hacc : valAccum st (l :: ls)
        = (valStep st l).2 :: valAccum (valStep st l).1 ls := rfl
    rw [hacc] at ho
    rcases List.mem_cons.mp ho with h1 | h1
    · rw [h1]
      exact valStep_no_newline (h l (by simp)) st
    · exact ih (fun x hx => h x (List.mem_cons_of_mem _ hx)) _ o h1

lemma nameTok_none_of_three_eq {A : List Char} (r : List Char)
    (h : A = ' ' :: ' ' :: ' ' :: r) : nameTok A = none :=
  h ▸ nameTok_none_of_three r

lemma filterMap_none {α β : Type} {f : α → Option β} {l : List α}
    (h : ∀ a ∈ l, f a = none) : l.filterMap f = [] := by
  induction l with
  | nil => rfl
  | cons x xs ih =>
    rw [List.filterMap_cons, h x (by simp)]
    exact ih (fun a ha => h a (List.mem_cons_of_mem _ ha))

/-- The lines of a rendered proxy after its name line. -/
def proxyRest (p : Proxy) : List (List Char) :=
  [chars "    type: vless",
   chars "    server: \"" ++ p.server ++ ['"'],
   chars "    port: " ++ intRepr p.port,
   chars "    uuid: \"" ++ p.uuid ++ ['"'],
   chars "    network: \"" ++ p.network ++ ['"'],
   chars "    tls: " ++ (if p.tls then chars "true" else chars "false")] ++
  (if p.tls then
    (if !p.sni.isEmpty then [chars "    servername: \"" ++ p.sni ++ ['"']] else []) ++
    (if !p.fingerprint.isEmpty
     then [chars "    fingerprint: \"" ++ p.fingerprint ++ ['"']] else []) ++
    (if !p.alpn.isEmpty then
      chars "    alpn:" ::
        p.alpn.filterMap (fun it =>
          let s := pyStrip it
          if s.isEmpty then none else some (chars "      - \"" ++ s ++ ['"']))
     else [])
   else []) ++
  (if p.network = chars "ws" then
    [chars "    ws-opts:",
     chars "      path: \"" ++ p.path ++ ['"'],
     chars "      headers:",
     chars "        Host: \"" ++ p.host ++ ['"']]
   else []) ++
  [chars "    udp: true",
   chars "    skip-cert-verify: false",
   []]

lemma nameTok_none_proxyRest (p : Proxy) :
    ∀ l ∈ proxyRest p, nameTok l = none := by
  intro l hl
  unfold proxyRest at hl
  split_ifs at hl
  all_goals
    simp only [List.mem_append, List.mem_cons, List.not_mem_nil, or_false,
      List.nil_append, List.append_nil] at hl
  all_goals casesm* _ ∨ _
  all_goals try subst_vars
  all_goals try exact nameTok_none_of_three_eq _ rfl
  all_goals try exact nameTok_nil
  all_goals
    obtain ⟨r, hr⟩ := alpn_item_shape (by assumption)
    exact nameTok_none_of_three_eq _ hr

lemma proxyLines_names (p : Proxy) :
    (proxyLines p).filterMap nameTok = [p.name] := by
  have hhead : proxyLines p = nameLine p.name :: proxyRest p := rfl
  rw [hhead, List.filterMap_cons, nameTok_nameLine,
    filterMap_none (nameTok_none_proxyRest p)]

lemma nameTok_none_headerLines (ts : List Char) (n : Nat) :
    ∀ l ∈ headerLines ts n, nameTok l = none := by
  intro l hl
  simp only [headerLines, List.mem_cons, List.not_mem_nil, or_false] at hl
  casesm* _ ∨ _
  all_goals subst_vars
  all_goals first
    | exact nameTok_nil
    | exact nameTok_none_of_head (by decide)

set_option maxHeartbeats 1600000 in
lemma nameTok_none_groupLines (names : List (List Char)) :
    ∀ l ∈ groupLines names, nameTok l = none := by
  intro l hl
  simp only [groupLines, List.mem_append, List.mem_cons, List.not_mem_nil,
    or_false, List.mem_map] at hl
  casesm* _ ∨ _, Exists _, _ ∧ _
  all_goals subst_vars
  all_goals first
    | exact nameTok_none_of_three_eq _ rfl
    | exact nameTok_nil
    | decide

lemma flatten_names (safe : List Proxy) :
    ((safe.map proxyLines).flatten).filterMap nameTok = safe.map Proxy.name := by
  induction safe with
  | nil => rfl
  | cons p ps ih =>
    rw [List.map_cons, List.flatten_cons, List.filterMap_append,
      proxyLines_names, ih]
    rfl

lemma buildLines_names (safe : List Proxy) (ts : List Char) :
    (buildLines safe ts).filterMap nameTok = safe.map Proxy.name := by
  unfold buildLines
  rw [List.filterMap_append, List.filterMap_append, List.filterMap_append]
  rw [filterMap_none (nameTok_none_headerLines ts safe.length),
      flatten_names,
      filterMap_none (show ∀ l ∈ [([] : List Char)], nameTok l = none by
        intro l hl
        rw [List.mem_singleton] at hl
        subst hl
        exact nameTok_nil),
      filterMap_none (nameTok_none_groupLines _)]
  simp

/-- The fields of a parsed proxy contain no newline (true of every proxy the
program parses out of single-line URIs; the renderer assumes it). -/
def cleanFields (p : Proxy) : Prop :=
  '\n' ∉ p.server ∧ '\n' ∉ p.uuid ∧ '\n' ∉ p.network ∧ '\n' ∉ p.sni ∧
  '\n' ∉ p.host ∧ '\n' ∉ p.path ∧ '\n' ∉ p.fingerprint ∧
  ∀ a ∈ p.alpn, '\n' ∉ a

instance (p : Proxy) : Decidable (cleanFields p) := by
  unfold cleanFields
  infer_instance

lemma no_newline_wrap {A f : List Char} (hf : '\n' ∉ f) (hA : '\n' ∉ A) :
    '\n' ∉ A ++ f ++ ['"'] := by
  intro hm
  rcases List.mem_append.mp hm with h1 | h1
  · rcases List.mem_append.mp h1 with h2 | h2
    · exact hA h2
    · exact hf h2
  · rw [List.mem_singleton] at h1
    exact absurd h1 (by decide)

lemma no_newline_cat {A f : List Char} (hf : '\n' ∉ f) (hA : '\n' ∉ A) :
    '\n' ∉ A ++ f := by
  intro hm
  rcases List.mem_append.mp hm with h1 | h1
  · exact hA h1
  · exact hf h1

lemma no_newline_alpn_item {alpn : List (List Char)} {l : List Char}
    (hal : ∀ a ∈ alpn, '\n' ∉ a)
    (h : l ∈ alpn.filterMap (fun it =>
      let s := pyStrip it
      if s.isEmpty then none else some (chars "      - \"" ++ s ++ ['"']))) :
    '\n' ∉ l := by
  rw [List.mem_filterMap] at h
  obtain ⟨a, ha, heq⟩ := h
  dsimp only at heq
  split_ifs at heq
  injection heq with heq2
  rw [← heq2]
  exact no_newline_wrap (fun hm => hal a ha (mem_pyStrip hm)) (by decide)

lemma sanitizeName_no_newline {server : List Char} {port : Int}
    {orig : List Char} (hs : '\n' ∉ server) :
    '\n' ∉ sanitizeName server port orig := by
  unfold sanitizeName
  intro hmem
  have h1 := mem_pyStrip hmem
  rw [List.mem_filter] at h1
  obtain ⟨h2, _⟩ := h1
  split_ifs at h2
  · simp only [List.mem_append, List.mem_cons] at h2
    rcases h2 with (h3 | h3) | h3
    · exact absurd h3 (by decide)
    · exact hs h3
    · rcases h3 with h3 | h3
      · exact absurd h3 (by decide)
      · exact no_newline_intRepr _ h3
  · have h3 := mem_pyStrip h2
    rw [List.mem_filter] at h3
    exact absurd h3.2 (by decide)

lemma no_newline_headerLines (now : PyDateTime) (n : Nat) :
    ∀ l ∈ headerLines (fmtTimestamp now) n, '\n' ∉ l := by
  intro l hl
  simp only [headerLines, List.mem_cons, List.not_mem_nil, or_false] at hl
  casesm* _ ∨ _
  all_goals subst_vars
  all_goals first
    | exact no_newline_cat (no_newline_fmtTimestamp now) (by decide)
    | exact no_newline_cat (no_newline_natDigits n) (by decide)
    | decide

lemma no_newline_proxyLines (p : Proxy) (hn : '\n' ∉ p.name)
    (hf : cleanFields p) : ∀ l ∈ proxyLines p, '\n' ∉ l := by
  obtain ⟨hsv, hu, hw, hsn, hh, hp2, hfp, hal⟩ := hf
  intro l hl
  unfold proxyLines at hl
  split_ifs at hl
  all_goals
    simp only [List.mem_append, List.mem_cons, List.not_mem_nil, or_false,
      List.nil_append, List.append_nil] at hl
  all_goals casesm* _ ∨ _
  all_goals try subst_vars
  all_goals first
    | exact no_newline_wrap hn (by decide)
    | exact no_newline_wrap hsv (by decide)
    | exact no_newline_wrap hu (by decide)
    | exact no_newline_wrap hw (by decide)
    | exact no_newline_wrap hsn (by decide)
    | exact no_newline_wrap hfp (by decide)
    | exact no_newline_wrap hp2 (by decide)
    | exact no_newline_wrap hh (by decide)
    | exact no_newline_cat (no_newline_intRepr p.port) (by decide)
    | exact no_newline_alpn_item hal (by assumption)
    | decide

lemma no_newline_groupLines (names : List (List Char))
    (hns : ∀ m ∈ names, '\n' ∉ m) : ∀ l ∈ groupLines names, '\n' ∉ l := by
  intro l hl
  simp only [groupLines, List.mem_append, List.mem_cons, List.not_mem_nil,
    or_false, List.mem_map] at hl
  casesm* _ ∨ _, Exists _, _ ∧ _
  all_goals subst_vars
  all_goals first
    | exact no_newline_wrap (hns _ (by assumption)) (by decide)
    | decide

lemma no_newline_buildLines (safe : List Proxy) (now : PyDateTime)
    (hc : ∀ p ∈ safe, '\n' ∉ p.name ∧ cleanFields p) :
    ∀ l ∈ buildLines safe (fmtTimestamp now), '\n' ∉ l := by
  intro l hl
  unfold buildLines at hl
  simp only [List.mem_append] at hl
  rcases hl with ((h | h) | h) | h
  · exact no_newline_headerLines now _ l h
  · rw [List.mem_flatten] at h
    obtain ⟨ls, hls, hmem⟩ := h
    rw [List.mem_map] at hls
    obtain ⟨p, hp, hpe⟩ := hls
    rw [← hpe] at hmem
    exact no_newline_proxyLines p (hc p hp).1 (hc p hp).2 l hmem
  · rw [List.mem_singleton] at h
    subst h
    simp
  · refine no_newline_groupLines _ ?_ l h
    intro m hm
    rw [List.mem_map] at hm
    obtain ⟨p, hp, hpe⟩ := hm
    rw [← hpe]
    exact (hc p hp).1

lemma mem_dropTrailingBlanks {ls : List (List Char)} {l : List Char}
    (h : l ∈ dropTrailingBlanks ls) : l ∈ ls := by
  unfold dropTrailingBlanks at h
  rw [List.mem_reverse] at h
  have h2 := (List.dropWhile_sublist _).mem h
  rw [List.mem_reverse] at h2
  exact h2

lemma dropTrailingBlanks_split (ls : List (List Char)) :
    ls = dropTrailingBlanks ls ++
      (ls.reverse.takeWhile (fun l => (pyStrip l).isEmpty)).reverse := by
  unfold dropTrailingBlanks
  have h0 : ls.reverse.takeWhile (fun l => (pyStrip l).isEmpty) ++
      ls.reverse.dropWhile (fun l => (pyStrip l).isEmpty) = ls.reverse :=
    List.takeWhile_append_dropWhile _ _
  conv_lhs => rw [← List.reverse_reverse ls, ← h0]
  rw [List.reverse_append]

lemma dropTrailingBlanks_count (ls : List (List Char)) :
    ((dropTrailingBlanks ls).filterMap nameTok).length
      = (ls.filterMap nameTok).length := by
  have hnil : ((ls.reverse.takeWhile
      (fun l => (pyStrip l).isEmpty)).reverse).filterMap nameTok = [] := by
    refine filterMap_none ?_
    intro a ha
    rw [List.mem_reverse] at ha
    have hb := List.mem_takeWhile_imp ha
    exact nameTok_none_of_blank (by simpa using hb)
  conv_rhs => rw [dropTrailingBlanks_split ls]
  rw [List.filterMap_append, hnil]
  simp

lemma getLast?_append_right {α : Type} (l₁ : List α) {l₂ : List α}
    (h : l₂ ≠ []) : (l₁ ++ l₂).getLast? = l₂.getLast? := by
  induction l₁ with
  | nil => rfl
  | cons x xs ih =>
    rw [List.cons_append, List.getLast?_cons, ih]
    cases l₂ with
    | nil => exact absurd rfl h
    | cons y ys => simp [List.getLast?_cons]

lemma validate_count (L : List (List Char))
    (hfree : ∀ l ∈ L, '\n' ∉ l) (hbit : ∀ l ∈ L, bitOK l)
    (hhead : ∃ T, joinLines L = '#' :: T)
    (hlastp : ∃ B, L = B ++ [chars "  - MATCH,🚀 节点选择"] ∧ B ≠ [])
    (hpos : 0 < (L.filterMap nameTok).length) :
    (extractProxyNames (validate_yaml (joinLines L ++ ['\n']))).length
      = (L.filterMap nameTok).length := by
  obtain ⟨T, hT⟩ := hhead
  obtain ⟨B, hB, hBne⟩ := hlastp
  have hLne : L ≠ [] := by rw [hB]; simp
  have hstrip : pyStrip (joinLines L ++ ['\n']) = joinLines L := by
    have h1 : pyLStrip (joinLines L ++ ['\n']) = joinLines L ++ ['\n'] := by
      rw [hT]
      exact pyLStrip_cons_nonspace (by decide)
    rw [pyStrip, h1, pyRStrip_append_newline]
    rw [hB, joinLines_concat B _ hBne]
    rw [show ('\n' :: chars "  - MATCH,🚀 节点选择")
        = ('\n' :: chars "  - MATCH,🚀 节点选") ++ ['择'] from rfl]
    rw [← List.append_assoc]
    exact pyRStrip_concat_nonspace (by decide)
  unfold validate_yaml
  rw [hstrip, pySplit_joinLines L hLne hfree]
  have hcnt : ((dropTrailingBlanks (valAccum (false, 0) L)).filterMap
      nameTok).length = (L.filterMap nameTok).length := by
    rw [dropTrailingBlanks_count]
    exact valAccum_bit_count L (fun l hl st => hbit l hl st) (false, 0)
  have hDfree : ∀ o ∈ dropTrailingBlanks (valAccum (false, 0) L), '\n' ∉ o :=
    fun o ho =>
      valAccum_no_newline L hfree (false, 0) o (mem_dropTrailingBlanks ho)
  have hDne : dropTrailingBlanks (valAccum (false, 0) L) ≠ [] := by
    intro hD
    rw [hD] at hcnt
    simp at hcnt
    omega
  unfold extractProxyNames
  rw [pySplit_joinLines _ hDne hDfree]
  exact hcnt

set_option maxRecDepth 100000 in
lemma build_count (proxies : List Proxy) (now : PyDateTime)
    (hclean : ∀ p ∈ proxies, cleanFields p) :
    (extractProxyNames (build_yaml_content proxies now)).length
      = proxies.length := by
  unfold build_yaml_content
  split_ifs with hemp
  · have hpe : proxies = [] := by
      cases proxies with
      | nil => rfl
      | cons p ps => simp [List.isEmpty] at hemp
    subst hpe
    decide
  · have hpne : proxies ≠ [] := by
      intro hpe
      rw [hpe] at hemp
      exact hemp rfl
    have hlen0 : (proxies.map (fun p =>
        { p with name := sanitizeName p.server p.port p.name })).length
        = proxies.length := by simp
    have hcl2 : ∀ q ∈ proxies.map (fun p =>
        { p with name := sanitizeName p.server p.port p.name }),
        '\n' ∉ q.name ∧ cleanFields q := by
      intro q hq
      rw [List.mem_map] at hq
      obtain ⟨p, hp, hpe⟩ := hq
      subst hpe
      exact ⟨sanitizeName_no_newline (hclean p hp).1, hclean p hp⟩
    revert hcl2 hlen0
    generalize proxies.map (fun p =>
      { p with name := sanitizeName p.server p.port p.name }) = safe
    intro hlen0 hcl2
    have hlen1 : 2 ≤ (buildLines safe (fmtTimestamp now)).length := by
      unfold buildLines
      rw [List.length_append, List.length_append, List.length_append]
      have h12 : (headerLines (fmtTimestamp now) safe.length).length = 12 := rfl
      omega
    have hLne : buildLines safe (fmtTimestamp now) ≠ [] := by
      intro hL
      rw [hL] at hlen1
      simp at hlen1
    have hlastq : (buildLines safe (fmtTimestamp now)).getLast?
        = some (chars "  - MATCH,🚀 节点选择") := by
      unfold buildLines
      rw [getLast?_append_right _ (by simp [groupLines])]
      unfold groupLines
      rw [getLast?_append_right _ (by simp)]
      decide
    have hlastp : ∃ B, buildLines safe (fmtTimestamp now)
        = B ++ [chars "  - MATCH,🚀 节点选择"] ∧ B ≠ [] := by
      refine ⟨(buildLines safe (fmtTimestamp now)).dropLast, ?_, ?_⟩
      · have h1 := List.dropLast_append_getLast hLne
        have h2 := List.getLast?_eq_getLast
          (buildLines safe (fmtTimestamp now)) hLne
        rw [hlastq] at h2
        injection h2 with h3
        rw [← h3] at h1
        exact h1.symm
      · intro hD
        have h3 := List.length_dropLast (buildLines safe (fmtTimestamp now))
        rw [hD] at h3
        simp at h3
        omega
    have hpos : 0 < ((buildLines safe
        (fmtTimestamp now)).filterMap nameTok).length := by
      rw [buildLines_names, List.length_map, hlen0]
      cases proxies with
      | nil => exact absurd rfl hpne
      | cons p ps => simp
    have hhead : ∃ T, joinLines (buildLines safe (fmtTimestamp now))
        = '#' :: T := ⟨_, rfl⟩
    have hmain := validate_count (buildLines safe (fmtTimestamp now))
      (no_newline_buildLines safe now hcl2) (bitOK_buildLines safe _)
      hhead hlastp hpos
    rw [hmain, buildLines_names, List.length_map, hlen0]

/-- The `server_port` component `_parse_vless_url` inspects: the part of the
post-`'@'` text before the query separator (src/utils/yaml_generator.py:63-67). -/
def vlessServerPort (rest : List Char) : List Char :=
  match splitOnce '?' rest with
  | some sp => sp.1
  | none => rest

lemma parse_none_iff (cfg : Config) (url : List Char) :
    parse_vless_url cfg url = none ↔
      (¬ (chars "vless://").isPrefixOf url = true ∨ '@' ∉ url.drop 8 ∨
        ∀ uuid rest, splitOnce '@' (url.drop 8) = some (uuid, rest) →
          ':' ∉ vlessServerPort rest) := by
  unfold parse_vless_url
  by_cases hpre : (chars "vless://").isPrefixOf url = true
  · rw [hpre]
    rw [if_neg (by decide)]
    dsimp only
    cases hsplit : splitOnce '@' (url.drop 8) with
    | none =>
      refine iff_of_true rfl ?_
      exact Or.inr (Or.inl (splitOnce_none.mp hsplit))
    | some ur =>
      obtain ⟨u, r⟩ := ur
      dsimp only
      have hsp : (match splitOnce '?' r with
          | some (sp, q) => (sp, q)
          | none => (r, ([] : List Char))).1 = vlessServerPort r := by
        unfold vlessServerPort
        cases splitOnce '?' r with
        | none => rfl
        | some sp => rfl
      have hmem : '@' ∈ url.drop 8 := by
        by_contra hnm
        rw [splitOnce_none.mpr hnm] at hsplit
        exact Option.noConfusion hsplit
      cases hrs : rsplitOnce ':'
          ((match splitOnce '?' r with
            | some (sp, q) => (sp, q)
            | none => (r, ([] : List Char))).1) with
      | none =>
        refine iff_of_true rfl ?_
        refine Or.inr (Or.inr ?_)
        intro uuid rest heq
        injection heq with heq2
        rw [Prod.mk.injEq] at heq2
        rw [← heq2.2, ← hsp]
        exact rsplitOnce_none.mp hrs
      | some sp2 =>
        obtain ⟨server, port_str⟩ := sp2
        dsimp only
        refine iff_of_false (by simp) ?_
        intro h
        rcases h with h | h | h
        · exact h rfl
        · exact h hmem
        · have h2 := h u r rfl
          rw [← hsp] at h2
          have h3 := rsplitOnce_none.mpr h2
          rw [hrs] at h3
          exact Option.noConfusion h3
  · have hb : (chars "vless://").isPrefixOf url = false := by
      cases hx : (chars "vless://").isPrefixOf url
      · rfl
      · exact absurd hx hpre
    rw [hb]
    rw [if_pos (by decide)]
    exact iff_of_true rfl (Or.inl (by decide))

set_option maxRecDepth 100000 in
/-- C4: in `generate_clash_yaml` a node is skipped exactly when its URI fails
structurally — wrong scheme, no `'@'` after the scheme, or no `':'` in the
server part before the query; a non-numeric port does not make parsing fail
(it falls back to `DEFAULT_PORT`), and every node that parses contributes
exactly one entry to the rendered proxies list, so a failing node never
aborts the rest of the batch. -/
theorem yaml_skips_unparseable :
    (∀ cfg url, parse_vless_url cfg url = none ↔
      (¬ (chars "vless://").isPrefixOf url = true ∨ '@' ∉ url.drop 8 ∨
        ∀ uuid rest, splitOnce '@' (url.drop 8) = some (uuid, rest) →
          ':' ∉ vlessServerPort rest)) ∧
    (∀ cfg now nodes,
      (∀ p ∈ nodes.filterMap (parse_vless_url cfg), cleanFields p) →
      (extractProxyNames (generate_clash_yaml nodes cfg now)).length
        = (nodes.filterMap (parse_vless_url cfg)).length) := by
  constructor
  · exact parse_none_iff
  · intro cfg now nodes hclean
    unfold generate_clash_yaml
    split_ifs with hemp
    · have hn : nodes = [] := by
        cases nodes with
        | nil => rfl
        | cons a b => simp [List.isEmpty] at hemp
      subst hn
      rw [List.filterMap_nil]
      decide
    · exact build_count _ now hclean

lemma valStep_nameLine_clean (st : Bool × Nat) (N : List Char)
    (hq : N.any valueNeedsQuote = false) :
    (valStep st (nameLine N)).2 = nameLine N := by
  have hr : pyRStrip (nameLine N) = nameLine N := by
    rw [show nameLine N = (chars "  - name: \"" ++ N) ++ ['"'] from by
      simp [nameLine]]
    exact pyRStrip_concat_nonspace (by decide)
  have hb : (pyStrip (nameLine N)).isEmpty = false := by
    cases hh : (pyStrip (nameLine N)).isEmpty
    · rfl
    · have hm : '-' ∈ nameLine N :=
        List.mem_append.mpr (Or.inl (List.mem_append.mpr (Or.inl (by decide))))
      exact absurd (strip_empty_all_space hh '-' hm) (by decide)
  unfold valStep
  dsimp only
  rw [hr, hb]
  simp only [Bool.false_eq_true, if_false]
  split_ifs
  all_goals try rfl
  all_goals rw [rebuildLine_nameLine, if_neg (by simp [hq])]

lemma tokOK_of_both_none {l : List Char}
    (h : ∀ st : Bool × Nat, nameTok ((valStep st l).2) = none ∧ nameTok l = none) :
    ∀ st : Bool × Nat, nameTok ((valStep st l).2) = nameTok l := by
  intro st
  rw [(h st).1, (h st).2]

lemma valAccum_tok (lines : List (List Char))
    (h : ∀ l ∈ lines, ∀ st : Bool × Nat,
      nameTok ((valStep st l).2) = nameTok l) :
    ∀ st : Bool × Nat,
      (valAccum st lines).filterMap nameTok = lines.filterMap nameTok := by
  induction lines with
  | nil => intro st; rfl
  | cons l ls ih =>
    intro st
    have hacc : valAccum st (l :: ls)
        = (valStep st l).2 :: valAccum (valStep st l).1 ls := rfl
    rw [hacc, List.filterMap_cons, List.filterMap_cons,
      h l (List.mem_cons_self _ _) st,
      ih (fun x hx => h x (List.mem_cons_of_mem _ hx)) _]

lemma dropTrailingBlanks_filterMap (ls : List (List Char)) :
    (dropTrailingBlanks ls).filterMap nameTok = ls.filterMap nameTok := by
  have hnil : ((ls.reverse.takeWhile
      (fun l => (pyStrip l).isEmpty)).reverse).filterMap nameTok = [] := by
    refine filterMap_none ?_
    intro a ha
    rw [List.mem_reverse] at ha
    have hb := List.mem_takeWhile_imp ha
    exact nameTok_none_of_blank (by simpa using hb)
  conv_rhs => rw [dropTrailingBlanks_split ls]
  rw [List.filterMap_append, hnil, List.append_nil]

lemma dropWhile_all {α : Type} {p : α → Bool} {A B : List α}
    (hA : ∀ a ∈ A, p a = true) :
    (A ++ B).dropWhile p = B.dropWhile p := by
  induction A with
  | nil => rfl
  | cons x xs ih =>
    rw [List.cons_append, List.dropWhile_cons, if_pos (hA x (by simp))]
    exact ih (fun a ha => hA a (List.mem_cons_of_mem _ ha))

lemma dropTrailingBlanks_concat (Y : List (List Char)) (l : List Char)
    (h : (pyStrip l).isEmpty = false) :
    dropTrailingBlanks (Y ++ [l]) = Y ++ [l] := by
  unfold dropTrailingBlanks
  rw [show (Y ++ [l]).reverse = l :: Y.reverse from by simp,
    List.dropWhile_cons]
  simp [h]

/-- A line whose `nameTok` value is preserved exactly by one validator
step, whatever the state. -/
def tokOK (l : List Char) : Prop :=
  ∀ st : Bool × Nat, nameTok ((valStep st l).2) = nameTok l

lemma tokOK_three {r : List Char} : tokOK (' ' :: ' ' :: ' ' :: r) :=
  tokOK_of_both_none (fun st => bit_three_space st r)

lemma tokOK_head {c : Char} {rest : List Char} (hc : pyIsSpace c = false) :
    tokOK (c :: rest) :=
  tokOK_of_both_none (fun st => bit_head_nonspace st c rest hc)

lemma tokOK_blank {l : List Char} (h : (pyStrip l).isEmpty = true) :
    tokOK l :=
  tokOK_of_both_none (fun st => bit_blank st l h)

lemma tokOK_concrete (l : List Char) (h1 : nameTok l = none)
    (h2 : nameTok (pyRStrip l) = none)
    (h3 : nameTok (rebuildLine (pyRStrip l)) = none) : tokOK l :=
  tokOK_of_both_none (fun st => bit_concrete l h1 h2 h3 st)

lemma tokOK_memberLine (N : List Char) : tokOK (memberLine N) := by
  have h : memberLine N
      = ' ' :: ' ' :: ' ' :: (chars "   - \"" ++ (N ++ ['"'])) := by
    simp [memberLine, chars]
  rw [show tokOK (memberLine N)
      = tokOK (' ' :: ' ' :: ' ' :: (chars "   - \"" ++ (N ++ ['"'])))
    from by rw [h]]
  exact tokOK_three

lemma tokOK_nameLine_clean (N : List Char)
    (hq : N.any valueNeedsQuote = false) : tokOK (nameLine N) := by
  intro st
  rw [valStep_nameLine_clean st N hq]

lemma tokOK_proxyLines (p : Proxy)
    (hq : p.name.any valueNeedsQuote = false) :
    ∀ l ∈ proxyLines p, tokOK l := by
  intro l hl
  rcases proxyLines_shape p l hl with h | h | ⟨r, h⟩ <;> subst h
  · exact tokOK_nameLine_clean _ hq
  · exact tokOK_blank (by decide)
  · exact tokOK_three

lemma tokOK_headerLines (ts : List Char) (n : Nat) :
    ∀ l ∈ headerLines ts n, tokOK l := by
  intro l hl
  simp only [headerLines, List.mem_cons, List.not_mem_nil, or_false] at hl
  casesm* _ ∨ _
  all_goals subst_vars
  all_goals first
    | exact tokOK_blank (by decide)
    | exact tokOK_head (by decide)

set_option maxHeartbeats 1600000 in
lemma tokOK_groupLines (names : List (List Char)) :
    ∀ l ∈ groupLines names, tokOK l := by
  intro l hl
  simp only [groupLines, List.mem_append, List.mem_cons, List.not_mem_nil,
    or_false, List.mem_map] at hl
  casesm* _ ∨ _, Exists _, _ ∧ _
  all_goals subst_vars
  all_goals try exact tokOK_concrete _ (by decide) (by decide) (by decide)
  all_goals exact tokOK_memberLine _

lemma tokOK_buildLines (safe : List Proxy) (ts : List Char)
    (hcl : ∀ p ∈ safe, p.name.any valueNeedsQuote = false) :
    ∀ l ∈ buildLines safe ts, tokOK l := by
  intro l hl
  unfold buildLines at hl
  simp only [List.mem_append] at hl
  rcases hl with ((h | h) | h) | h
  · exact tokOK_headerLines ts _ l h
  · rw [List.mem_flatten] at h
    obtain ⟨ls, hls, hmem⟩ := h
    rw [List.mem_map] at hls
    obtain ⟨p, hp, hpe⟩ := hls
    rw [← hpe] at hmem
    exact tokOK_proxyLines p (hcl p hp) l hmem
  · rw [List.mem_singleton] at h
    subst h
    exact tokOK_blank (by decide)
  · exact tokOK_groupLines _ l h

lemma valStep_tame (k : Nat) (l : List Char)
    (ht : hasSubstr (chars "alpn:") (pyRStrip l) = false) :
    (valStep (false, k) l).1 = (false, k) ∧
      ((valStep (false, k) l).2 = [] ∨
        (valStep (false, k) l).2 = rebuildLine (pyRStrip l)) := by
  by_cases hb : (pyStrip (pyRStrip l)).isEmpty = true
  · rw [valStep_blank _ _ hb]
    exact ⟨rfl, Or.inl rfl⟩
  · have hb' : (pyStrip (pyRStrip l)).isEmpty = false := by
      cases hh : (pyStrip (pyRStrip l)).isEmpty
      · rfl
      · exact absurd hh hb
    rw [valStep_false k l hb' ht]
    exact ⟨rfl, Or.inr rfl⟩

lemma valAccum_tame (k : Nat) (ls : List (List Char))
    (ht : ∀ l ∈ ls, hasSubstr (chars "alpn:") (pyRStrip l) = false) :
    valAccum (false, k) ls
        = ls.map (fun l => (valStep (false, k) l).2) ∧
      valFinal (false, k) ls = (false, k) := by
  induction ls with
  | nil => exact ⟨rfl, rfl⟩
  | cons l ls ih =>
    have hst := (valStep_tame k l (ht l (by simp))).1
    have ih' := ih (fun x hx => ht x (List.mem_cons_of_mem _ hx))
    constructor
    · have hacc : valAccum (false, k) (l :: ls)
          = (valStep (false, k) l).2 :: valAccum (valStep (false, k) l).1 ls :=
        rfl
      rw [hacc, hst, ih'.1, List.map_cons]
    · have hfin : valFinal (false, k) (l :: ls)
          = valFinal (valStep (false, k) l).1 ls := rfl
      rw [hfin, hst, ih'.2]

lemma valStep_out_k (k : Nat) (l : List Char) :
    (valStep (false, k) l).2 = (valStep (false, 0) l).2 := by
  unfold valStep
  dsimp only
  simp only [Bool.false_and, Bool.false_eq_true, if_false]
  split_ifs <;> rfl

lemma memberLine_no_colon {N : List Char}
    (hq : N.any valueNeedsQuote = false) : ':' ∉ memberLine N := by
  intro hm
  unfold memberLine at hm
  simp only [List.mem_append, List.mem_cons, List.not_mem_nil, or_false] at hm
  rcases hm with (h | h) | h
  · exact absurd h (by decide)
  · have h2 : N.any valueNeedsQuote = true :=
      List.any_eq_true.mpr ⟨':', h, by decide⟩
    rw [h2] at hq
    exact Bool.noConfusion hq
  · exact absurd h (by decide)

lemma pyRStrip_memberLine (N : List Char) :
    pyRStrip (memberLine N) = memberLine N := by
  rw [show memberLine N = (chars "      - \"" ++ N) ++ ['"'] from by
    simp [memberLine]]
  exact pyRStrip_concat_nonspace (by decide)

lemma valStep_member (k : Nat) (N : List Char)
    (hq : N.any valueNeedsQuote = false) :
    valStep (false, k) (memberLine N) = ((false, k), memberLine N) := by
  have hrs := pyRStrip_memberLine N
  have hcol := memberLine_no_colon hq
  have hb : (pyStrip (memberLine N)).isEmpty = false := by
    cases hh : (pyStrip (memberLine N)).isEmpty
    · rfl
    · have hm : '-' ∈ memberLine N :=
        List.mem_append.mpr (Or.inl (List.mem_append.mpr (Or.inl (by decide))))
      exact absurd (strip_empty_all_space hh '-' hm) (by decide)
  have ha : hasSubstr (chars "alpn:") (memberLine N) = false := by
    cases hh : hasSubstr (chars "alpn:") (memberLine N)
    · rfl
    · exact absurd (hasSubstr_subset hh ':' (by decide)) hcol
  have hre : rebuildLine (memberLine N) = memberLine N := by
    unfold rebuildLine
    rw [splitOnce_none.mpr hcol]
  rw [valStep_false k (memberLine N) (by rw [hrs]; exact hb)
    (by rw [hrs]; exact ha), hrs, hre]

lemma member_tame {N : List Char} (hq : N.any valueNeedsQuote = false) :
    hasSubstr (chars "alpn:") (pyRStrip (memberLine N)) = false := by
  rw [pyRStrip_memberLine]
  cases hh : hasSubstr (chars "alpn:") (memberLine N)
  · rfl
  · exact absurd (hasSubstr_subset hh ':' (by decide)) (memberLine_no_colon hq)

lemma group_tame (names : List (List Char))
    (hcl : ∀ n ∈ names, n.any valueNeedsQuote = false) :
    ∀ l ∈ groupLines names,
      hasSubstr (chars "alpn:") (pyRStrip l) = false := by
  intro l hl
  unfold groupLines at hl
  rcases List.mem_append.mp hl with h | h
  · rcases List.mem_append.mp h with h | h
    · rcases List.mem_append.mp h with h | h
      · rcases List.mem_append.mp h with h | h
        · simp only [List.mem_cons, List.not_mem_nil, or_false] at h
          rcases h with rfl | rfl | rfl | rfl <;> decide
        · rw [List.mem_map] at h
          obtain ⟨a, ha, rfl⟩ := h
          exact member_tame (hcl a ha)
      · simp only [List.mem_cons, List.not_mem_nil, or_false] at h
        rcases h with rfl | rfl | rfl | rfl | rfl <;> decide
    · rw [List.mem_map] at h
      obtain ⟨a, ha, rfl⟩ := h
      exact member_tame (hcl a ha)
  · simp only [List.mem_cons, List.not_mem_nil, or_false] at h
    rcases h with rfl | rfl | rfl | rfl | rfl | rfl | rfl | rfl | rfl | rfl |
      rfl | rfl | rfl | rfl | rfl | rfl | rfl | rfl | rfl | rfl | rfl | rfl |
      rfl | rfl | rfl | rfl | rfl <;> decide

lemma memberTok_isSome_of_eq {o m : List Char}
    (h : memberTok o = some m) : (memberTok o).isSome = true := by
  rw [h]
  rfl

lemma groupOut_members (k : Nat) (names : List (List Char))
    (hcl : ∀ n ∈ names, n.any valueNeedsQuote = false) :
    ∀ m ∈ (valAccum (false, k) (groupLines names)).filterMap memberTok,
      m ∈ names := by
  intro m hm
  rw [(valAccum_tame k _ (group_tame names hcl)).1] at hm
  rw [List.mem_filterMap] at hm
  obtain ⟨o, ho, htok⟩ := hm
  rw [List.mem_map] at ho
  obtain ⟨l, hl, hle⟩ := ho
  rw [← hle] at htok
  try dsimp only at htok
  rw [valStep_out_k k l] at htok
  unfold groupLines at hl
  rcases List.mem_append.mp hl with h | h
  · rcases List.mem_append.mp h with h | h
    · rcases List.mem_append.mp h with h | h
      · rcases List.mem_append.mp h with h | h
        · simp only [List.mem_cons, List.not_mem_nil, or_false] at h
          rcases h with rfl | rfl | rfl | rfl <;>
            exact absurd (memberTok_isSome_of_eq htok) (by decide)
        · rw [List.mem_map] at h
          obtain ⟨a, ha, rfl⟩ := h
          rw [valStep_member 0 a (hcl a ha)] at htok
          try dsimp only at htok
          rw [memberTok_memberLine] at htok
          injection htok with h2
          rw [← h2]
          exact ha
      · simp only [List.mem_cons, List.not_mem_nil, or_false] at h
        rcases h with rfl | rfl | rfl | rfl | rfl <;>
          exact absurd (memberTok_isSome_of_eq htok) (by decide)
    · rw [List.mem_map] at h
      obtain ⟨a, ha, rfl⟩ := h
      rw [valStep_member 0 a (hcl a ha)] at htok
      try dsimp only at htok
      rw [memberTok_memberLine] at htok
      injection htok with h2
      rw [← h2]
      exact ha
  · simp only [List.mem_cons, List.not_mem_nil, or_false] at h
    rcases h with rfl | rfl | rfl | rfl | rfl | rfl | rfl | rfl | rfl | rfl |
      rfl | rfl | rfl | rfl | rfl | rfl | rfl | rfl | rfl | rfl | rfl | rfl |
      rfl | rfl | rfl | rfl | rfl <;>
      exact absurd (memberTok_isSome_of_eq htok) (by decide)

lemma ne_pg_of_blank {x : List Char} (h : (pyStrip x).isEmpty = true) :
    x ≠ chars "proxy-groups:" := by
  intro he
  rw [he] at h
  exact absurd h (by decide)

lemma ne_pg_of_head {x : List Char} {c : Char} {t : List Char}
    (hx : x = c :: t) (hc : c ≠ 'p') : x ≠ chars "proxy-groups:" := by
  intro he
  rw [hx, show chars "proxy-groups:" = 'p' :: chars "roxy-groups:" from
    rfl] at he
  injection he with h1 _
  exact hc h1

lemma valStep_three_ne_pg (st : Bool × Nat) (r : List Char) :
    (valStep st (' ' :: ' ' :: ' ' :: r)).2 ≠ chars "proxy-groups:" := by
  have hpre := pyRStrip_isPrefix (' ' :: ' ' :: ' ' :: r)
  by_cases hb : (pyStrip (pyRStrip (' ' :: ' ' :: ' ' :: r))).isEmpty = true
  · rcases valStep_out st (' ' :: ' ' :: ' ' :: r) with ho | ho | ho <;> rw [ho]
    · decide
    · exact ne_pg_of_blank hb
    · rw [rebuildLine_of_blank hb]
      exact ne_pg_of_blank hb
  · have hb' : (pyStrip (pyRStrip (' ' :: ' ' :: ' ' :: r))).isEmpty
        = false := by
      cases hh : (pyStrip (pyRStrip (' ' :: ' ' :: ' ' :: r))).isEmpty
      · rfl
      · exact absurd hh hb
    obtain ⟨r2, hr2⟩ := prefix_three hpre (nonblank_has_nonspace hb')
    rcases valStep_out st (' ' :: ' ' :: ' ' :: r) with ho | ho | ho <;> rw [ho]
    · decide
    · rw [hr2]
      exact ne_pg_of_head rfl (by decide)
    · rw [hr2]
      rcases rebuildLine_indent (' ' :: ' ' :: ' ' :: r2) with he | ⟨X, he⟩ <;>
        rw [he]
      · exact ne_pg_of_head rfl (by decide)
      · obtain ⟨r3, hr3⟩ := replicate_three (indentOf_three r2) X
        rw [hr3]
        exact ne_pg_of_head rfl (by decide)

lemma valStep_head_ne_pg (st : Bool × Nat) (c : Char) (rest : List Char)
    (hc : pyIsSpace c = false) (hcp : c ≠ 'p') :
    (valStep st (c :: rest)).2 ≠ chars "proxy-groups:" := by
  rcases valStep_out st (c :: rest) with ho | ho | ho <;> rw [ho]
  · decide
  · rw [pyRStrip_cons_nonspace hc]
    exact ne_pg_of_head rfl hcp
  · rw [pyRStrip_cons_nonspace hc]
    obtain ⟨d, t, heq, hd⟩ := rebuildLine_head (pyRStrip rest) hc
    rw [heq]
    rcases hd with h | h <;> subst h
    · exact ne_pg_of_head rfl hcp
    · exact ne_pg_of_head rfl (by decide)

lemma valStep_nameLine_ne_pg (st : Bool × Nat) (N : List Char) :
    (valStep st (nameLine N)).2 ≠ chars "proxy-groups:" := by
  rcases valStep_nameLine st N with ho | ho <;> rw [ho]
  · exact ne_pg_of_head rfl (by decide)
  · exact ne_pg_of_head rfl (by decide)

lemma valStep_blank_ne_pg (st : Bool × Nat) (l : List Char)
    (h : (pyStrip l).isEmpty = true) :
    (valStep st l).2 ≠ chars "proxy-groups:" := by
  have h2 : (pyStrip (pyRStrip l)).isEmpty = true := by
    cases hh : (pyStrip (pyRStrip l)).isEmpty
    · obtain ⟨c, hcm, hcn⟩ := nonblank_has_nonspace hh
      have := strip_empty_all_space h c (mem_pyRStrip hcm)
      rw [this] at hcn
      exact Bool.noConfusion hcn
    · rfl
  rw [valStep_blank st l h2]
  exact (by decide : ([] : List Char) ≠ chars "proxy-groups:")

lemma mem_valAccum {lines : List (List Char)} {st : Bool × Nat}
    {o : List Char} (h : o ∈ valAccum st lines) :
    ∃ l ∈ lines, ∃ st2 : Bool × Nat, o = (valStep st2 l).2 := by
  induction lines generalizing st with
  | nil => simp [valAccum] at h
  | cons l ls ih =>
    rw [show valAccum st (l :: ls)
        = (valStep st l).2 :: valAccum (valStep st l).1 ls from rfl] at h
    rcases List.mem_cons.mp h with h1 | h1
    · exact ⟨l, by simp, st, h1⟩
    · obtain ⟨l2, hl2, st2, ho⟩ := ih h1
      exact ⟨l2, List.mem_cons_of_mem _ hl2, st2, ho⟩

lemma pre_lines_ne_pg (safe : List Proxy) (ts : List Char) :
    ∀ l ∈ (headerLines ts safe.length ++ (safe.map proxyLines).flatten)
        ++ [([] : List Char)],
      ∀ st : Bool × Nat, (valStep st l).2 ≠ chars "proxy-groups:" := by
  intro l hl st
  rcases List.mem_append.mp hl with h | h
  · rcases List.mem_append.mp h with h | h
    · simp only [headerLines, List.mem_cons, List.not_mem_nil, or_false] at h
      rcases h with rfl | rfl | rfl | rfl | rfl | rfl | rfl | rfl | rfl |
        rfl | rfl | rfl
      all_goals first
        | exact valStep_blank_ne_pg st _ (by decide)
        | exact valStep_head_ne_pg st _ _ (by decide) (by decide)
        | (rcases valStep_out st (chars "proxies:") with ho | ho | ho <;>
            rw [ho] <;> decide)
    · rw [List.mem_flatten] at h
      obtain ⟨ls, hls, hmem⟩ := h
      rw [List.mem_map] at hls
      obtain ⟨p, hp, hpe⟩ := hls
      rw [← hpe] at hmem
      rcases proxyLines_shape p l hmem with h2 | h2 | ⟨r, h2⟩ <;> subst h2
      · exact valStep_nameLine_ne_pg st _
      · exact valStep_blank_ne_pg st _ (by decide)
      · exact valStep_three_ne_pg st r
  · rw [List.mem_singleton] at h
    subst h
    exact valStep_blank_ne_pg st _ (by decide)

lemma getLast?_map {α β : Type} (f : α → β) (l : List α) :
    (l.map f).getLast? = l.getLast?.map f := by
  induction l with
  | nil => rfl
  | cons x xs ih =>
    cases xs with
    | nil => rfl
    | cons y ys =>
      rw [List.map_cons, List.getLast?_cons_cons, List.map_cons,
        List.getLast?_cons_cons, ← List.map_cons]
      exact ih

lemma dropTrailingBlanks_of_last {ls : List (List Char)} {l : List Char}
    (h : ls.getLast? = some l) (hb : (pyStrip l).isEmpty = false) :
    dropTrailingBlanks ls = ls := by
  have hne : ls ≠ [] := by
    intro he
    rw [he] at h
    exact Option.noConfusion h
  have h1 := List.dropLast_append_getLast hne
  have h2 := List.getLast?_eq_getLast ls hne
  rw [h] at h2
  injection h2 with h3
  rw [h3] at hb
  calc dropTrailingBlanks ls
      = dropTrailingBlanks (ls.dropLast ++ [ls.getLast hne]) := by rw [h1]
    _ = ls.dropLast ++ [ls.getLast hne] :=
        dropTrailingBlanks_concat _ _ hb
    _ = ls := h1

set_option maxRecDepth 100000 in
lemma validate_members (safe : List Proxy) (now : PyDateTime)
    (hcl2 : ∀ q ∈ safe, '\n' ∉ q.name ∧ cleanFields q)
    (hq2 : ∀ q ∈ safe, q.name.any valueNeedsQuote = false) :
    ∀ m ∈ extractGroupMembers (validate_yaml
        (joinLines (buildLines safe (fmtTimestamp now)) ++ ['\n'])),
      m ∈ extractProxyNames (validate_yaml
        (joinLines (buildLines safe (fmtTimestamp now)) ++ ['\n'])) := by
  intro m hm
  have hfreeL := no_newline_buildLines safe now hcl2
  have hlen1 : 2 ≤ (buildLines safe (fmtTimestamp now)).length := by
    unfold buildLines
    rw [List.length_append, List.length_append, List.length_append]
    have h12 : (headerLines (fmtTimestamp now) safe.length).length = 12 := rfl
    omega
  have hLne : buildLines safe (fmtTimestamp now) ≠ [] := by
    intro hL
    rw [hL] at hlen1
    simp at hlen1
  have hlastq : (buildLines safe (fmtTimestamp now)).getLast?
      = some (chars "  - MATCH,🚀 节点选择") := by
    unfold buildLines
    rw [getLast?_append_right _ (by simp [groupLines])]
    unfold groupLines
    rw [getLast?_append_right _ (by simp)]
    decide
  have hlastp : ∃ B, buildLines safe (fmtTimestamp now)
      = B ++ [chars "  - MATCH,🚀 节点选择"] ∧ B ≠ [] := by
    refine ⟨(buildLines safe (fmtTimestamp now)).dropLast, ?_, ?_⟩
    · have h1 := List.dropLast_append_getLast hLne
      have h2 := List.getLast?_eq_getLast
        (buildLines safe (fmtTimestamp now)) hLne
      rw [hlastq] at h2
      injection h2 with h3
      rw [← h3] at h1
      exact h1.symm
    · intro hD
      have h3 := List.length_dropLast (buildLines safe (fmtTimestamp now))
      rw [hD] at h3
      simp at h3
      omega
  obtain ⟨B, hB, hBne⟩ := hlastp
  have hhead : ∃ T, joinLines (buildLines safe (fmtTimestamp now))
      = '#' :: T := ⟨_, rfl⟩
  obtain ⟨T, hT⟩ := hhead
  have hstrip : pyStrip (joinLines (buildLines safe (fmtTimestamp now))
      ++ ['\n']) = joinLines (buildLines safe (fmtTimestamp now)) := by
    have h1 : pyLStrip (joinLines (buildLines safe (fmtTimestamp now))
        ++ ['\n'])
        = joinLines (buildLines safe (fmtTimestamp now)) ++ ['\n'] := by
      rw [hT]
      exact pyLStrip_cons_nonspace (by decide)
    rw [pyStrip, h1, pyRStrip_append_newline]
    rw [hB, joinLines_concat B _ hBne]
    rw [show ('\n' :: chars "  - MATCH,🚀 节点选择")
        = ('\n' :: chars "  - MATCH,🚀 节点选") ++ ['择'] from rfl]
    rw [← List.append_assoc]
    exact pyRStrip_concat_nonspace (by decide)
  -- the output lines
  have hsplitL : valAccum (false, 0) (buildLines safe (fmtTimestamp now))
      = valAccum (false, 0) ((headerLines (fmtTimestamp now) safe.length ++
          (safe.map proxyLines).flatten) ++ [([] : List Char)]) ++
        valAccum (valFinal (false, 0)
          ((headerLines (fmtTimestamp now) safe.length ++
            (safe.map proxyLines).flatten) ++ [([] : List Char)]))
          (groupLines (safe.map Proxy.name)) := by
    rw [show buildLines safe (fmtTimestamp now)
        = ((headerLines (fmtTimestamp now) safe.length ++
            (safe.map proxyLines).flatten) ++ [([] : List Char)]) ++
          groupLines (safe.map Proxy.name) from rfl]
    exact valAccum_append _ _ _
  have hstG : valFinal (false, 0)
      ((headerLines (fmtTimestamp now) safe.length ++
        (safe.map proxyLines).flatten) ++ [([] : List Char)])
      = (false, (valFinal (false, 0)
          ((headerLines (fmtTimestamp now) safe.length ++
            (safe.map proxyLines).flatten) ++ [([] : List Char)])).2) := by
    have h1 := valFinal_blank_end (false, 0)
      (headerLines (fmtTimestamp now) safe.length ++
        (safe.map proxyLines).flatten)
    exact Prod.ext h1 rfl
  have hnames : ∀ n ∈ safe.map Proxy.name, n.any valueNeedsQuote = false := by
    intro n hn
    rw [List.mem_map] at hn
    obtain ⟨p, hp, hpe⟩ := hn
    rw [← hpe]
    exact hq2 p hp
  have hGlast : (groupLines (safe.map Proxy.name)).getLast?
      = some (chars "  - MATCH,🚀 节点选择") := by
    unfold groupLines
    rw [getLast?_append_right _ (by simp)]
    decide
  have hgroupacc := (valAccum_tame (valFinal (false, 0)
      ((headerLines (fmtTimestamp now) safe.length ++
        (safe.map proxyLines).flatten) ++ [([] : List Char)])).2
    (groupLines (safe.map Proxy.name))
    (group_tame (safe.map Proxy.name) hnames)).1
  have hGne : groupLines (safe.map Proxy.name) ≠ [] := by
    simp [groupLines]
  have hlastout : (valAccum (false, 0)
      (buildLines safe (fmtTimestamp now))).getLast?
      = some (chars "  - MATCH,🚀 节点选择") := by
    rw [hsplitL, hstG, hgroupacc]
    rw [getLast?_append_right _ (by
      intro he
      exact hGne (List.map_eq_nil_iff.mp he))]
    rw [getLast?_map, hGlast]
    rw [Option.map_some']
    rw [show (valStep (false, (valFinal (false, 0)
        ((headerLines (fmtTimestamp now) safe.length ++
          (safe.map proxyLines).flatten) ++ [([] : List Char)])).2)
        (chars "  - MATCH,🚀 节点选择")).2
        = (valStep (false, 0) (chars "  - MATCH,🚀 节点选择")).2 from
      valStep_out_k _ _]
    rw [show (valStep (false, 0) (chars "  - MATCH,🚀 节点选择")).2
        = chars "  - MATCH,🚀 节点选择" from by decide]
  have hdtb : dropTrailingBlanks (valAccum (false, 0)
      (buildLines safe (fmtTimestamp now)))
      = valAccum (false, 0) (buildLines safe (fmtTimestamp now)) :=
    dropTrailingBlanks_of_last hlastout (by decide)
  have hfreeOut : ∀ o ∈ valAccum (false, 0)
      (buildLines safe (fmtTimestamp now)), '\n' ∉ o :=
    valAccum_no_newline _ hfreeL _
  have hOutne : valAccum (false, 0) (buildLines safe (fmtTimestamp now))
      ≠ [] := by
    intro he
    rw [he] at hlastout
    exact Option.noConfusion hlastout
  have hdoc : validate_yaml (joinLines (buildLines safe (fmtTimestamp now))
      ++ ['\n'])
      = joinLines (valAccum (false, 0)
          (buildLines safe (fmtTimestamp now))) := by
    unfold validate_yaml
    rw [hstrip, pySplit_joinLines _ hLne hfreeL, hdtb]
  rw [hdoc] at hm ⊢
  have hpre_ne : ∀ x ∈ valAccum (false, 0)
      ((headerLines (fmtTimestamp now) safe.length ++
        (safe.map proxyLines).flatten) ++ [([] : List Char)]),
      (!(x == chars "proxy-groups:")) = true := by
    intro x hx
    obtain ⟨l, hl, st2, hxe⟩ := mem_valAccum hx
    have hne := pre_lines_ne_pg safe (fmtTimestamp now) l hl st2
    rw [hxe]
    cases hbeq : ((valStep st2 l).2 == chars "proxy-groups:")
    · rfl
    · exact absurd (by simpa using hbeq) hne
  obtain ⟨Gt, hGc⟩ : ∃ t, groupLines (safe.map Proxy.name)
      = chars "proxy-groups:" :: t := ⟨_, rfl⟩
  have hfpg : (valStep (false, (valFinal (false, 0)
      ((headerLines (fmtTimestamp now) safe.length ++
        (safe.map proxyLines).flatten) ++ [([] : List Char)])).2)
      (chars "proxy-groups:")).2 = chars "proxy-groups:" := by
    rw [valStep_out_k]
    decide
  have hm2 : m ∈ (valAccum (false, (valFinal (false, 0)
      ((headerLines (fmtTimestamp now) safe.length ++
        (safe.map proxyLines).flatten) ++ [([] : List Char)])).2)
      (groupLines (safe.map Proxy.name))).filterMap memberTok := by
    unfold extractGroupMembers at hm
    rw [pySplit_joinLines _ hOutne hfreeOut] at hm
    rw [hsplitL, hstG] at hm
    rw [dropWhile_all hpre_ne] at hm
    rw [hgroupacc, hGc, List.map_cons, hfpg] at hm
    rw [List.dropWhile_cons, if_neg (by simp)] at hm
    rw [hgroupacc, hGc, List.map_cons, hfpg]
    exact hm
  have hmem := groupOut_members _ (safe.map Proxy.name) hnames m hm2
  unfold extractProxyNames
  rw [pySplit_joinLines _ hOutne hfreeOut]
  rw [valAccum_tok _ (tokOK_buildLines safe (fmtTimestamp now) hq2) _]
  rw [buildLines_names]
  exact hmem

set_option maxRecDepth 100000 in
/-- C5: if every parsed proxy has newline-free fields and a sanitized name
free of the characters `_validate_yaml` re-quotes values for, then every
member name the rendered document's selection groups emit also appears as a
name in its top-level proxies list (the companion counterexample shows the
hypothesis is needed: a name containing `':'` is mangled differently in the
two sections). -/
theorem group_members_subset_names (cfg : Config) (now : PyDateTime)
    (nodes : List (List Char))
    (hclean : ∀ p ∈ nodes.filterMap (parse_vless_url cfg), cleanFields p ∧
      (sanitizeName p.server p.port p.name).any valueNeedsQuote = false) :
    ∀ m ∈ extractGroupMembers (generate_clash_yaml nodes cfg now),
      m ∈ extractProxyNames (generate_clash_yaml nodes cfg now) := by
  unfold generate_clash_yaml
  split_ifs with hemp
  · intro m hm
    rw [show extractGroupMembers emptyYamlGen = [] from by decide] at hm
    exact absurd hm (List.not_mem_nil m)
  · unfold build_yaml_content
    split_ifs with hemp2
    · intro m hm
      rw [show extractGroupMembers minimalYaml = [] from by decide] at hm
      exact absurd hm (List.not_mem_nil m)
    · have hcl2 : ∀ q ∈ (nodes.filterMap (parse_vless_url cfg)).map (fun p =>
          { p with name := sanitizeName p.server p.port p.name }),
          '\n' ∉ q.name ∧ cleanFields q := by
        intro q hq
        rw [List.mem_map] at hq
        obtain ⟨p, hp, hpe⟩ := hq
        subst hpe
        exact ⟨sanitizeName_no_newline (hclean p hp).1.1, (hclean p hp).1⟩
      have hq2 : ∀ q ∈ (nodes.filterMap (parse_vless_url cfg)).map (fun p =>
          { p with name := sanitizeName p.server p.port p.name }),
          q.name.any valueNeedsQuote = false := by
        intro q hq
        rw [List.mem_map] at hq
        obtain ⟨p, hp, hpe⟩ := hq
        subst hpe
        exact (hclean p hp).2
      exact validate_members _ now hcl2 hq2

set_option maxRecDepth 100000 in
/-- Witness for the C5 theorem at a concrete clean input. -/
theorem group_members_subset_names_witness :
    (∀ p ∈ ([chars "vless://u@1.2.3.4:443?x=1#lab"] :
        List (List Char)).filterMap (parse_vless_url cfgTest),
      cleanFields p ∧
        (sanitizeName p.server p.port p.name).any valueNeedsQuote = false) ∧
    (∀ m ∈ extractGroupMembers (generate_clash_yaml
        [chars "vless://u@1.2.3.4:443?x=1#lab"] cfgTest nowTest),
      m ∈ extractProxyNames (generate_clash_yaml
        [chars "vless://u@1.2.3.4:443?x=1#lab"] cfgTest nowTest)) :=
  ⟨by decide, group_members_subset_names cfgTest nowTest _ (by decide)⟩
